import Mathlib

/-!
Verification of the fixtest FIX test-harness core: the wire codec
(`fixtest/fix/message.py`), the streaming parser (`fixtest/fix/parser.py`),
the session engine (`fixtest/fix/protocol.py`), the transport filter
(`fixtest/fix/transport.py`) and the message queue (`fixtest/base/queue.py`).

Bytes are modelled as `List Nat`; the byte 0x01 is the FIX field delimiter
(SOH) and 0x3d = 61 is `=`.  Tags are natural numbers (the repository's
messages use positive integer tags throughout; Python's `int()` is modelled
on the digit-string inputs that actually occur on the wire).
-/

namespace Fixtest

/-- A wire byte string. -/
abbrev Bytes := List Nat

/-- ASCII bytes of a Lean string (used to build concrete wire inputs). -/
def bstr (s : String) : Bytes := s.toList.map Char.toNat

/-- The test helper `to_fix` from `fixtest/tests/utils.py`: joins the given
fields with the 0x01 delimiter (appended after every field). -/
def toFix (fields : List String) : Bytes :=
  (fields.map (fun s => bstr s ++ [1])).flatten

/-- `checksum` from `fixtest/fix/message.py`: running sum of bytes mod 256. -/
def checksum (data : Bytes) (startingChecksum : Nat := 0) : Nat :=
  data.foldl (fun c b => (c + b) % 256) startingChecksum

/-- Decimal rendering of a natural number, structurally (on fuel) so that
concrete instances reduce by `decide`/`rfl`.  Models Python `str(n)`. -/
def natToBytesCore : Nat → Nat → Bytes
  | 0, _ => []
  | fuel + 1, n =>
      if n < 10 then [n + 48]
      else natToBytesCore fuel (n / 10) ++ [n % 10 + 48]

/-- ASCII decimal rendering of `n` (Python `str(n)` for a nonnegative int). -/
def natToBytes (n : Nat) : Bytes := natToBytesCore (n + 1) n

/-- Is this byte an ASCII decimal digit? -/
def isDigit (b : Nat) : Bool := 48 ≤ b && b ≤ 57

/-- Numeric value of a digit string (no validation), used by `pyParseNat?`. -/
def bytesToNat (bs : Bytes) : Nat := bs.foldl (fun a b => a * 10 + (b - 48)) 0

/-- Model of Python `int(s)` restricted to the nonnegative digit strings that
occur on the FIX wire: succeeds exactly on nonempty all-digit strings.
(Python's `int` would additionally strip whitespace and accept a sign; no
wire input in this development contains those.) -/
def pyParseNat? (bs : Bytes) : Option Nat :=
  if bs ≠ [] ∧ bs.all isDigit then some (bytesToNat bs) else none

/-- Python `buf.find(b, start)`: index of the first occurrence of byte `b`
at index ≥ `start`, if any. -/
def findFrom (b : Nat) (start : Nat) (l : Bytes) : Option Nat :=
  match (l.drop start).findIdx? (· == b) with
  | some i => some (start + i)
  | none => none

/-!  ## The message container

`fixtest/base/message.py` (`BasicMessage`) is an insertion-ordered mapping
from integer tags to values; `fixtest/fix/message.py` (`FIXMessage`)
normalizes keys with `int(key)` and pre-seeds the header tags.  A value is
either a byte string or a repeating-group list of sub-messages
(`OrderedDict`s built by the parser / nested containers fed to the encoder).
The three types are mutually inductive so that all functions over them are
structurally recursive (and hence reduce inside `decide`/`rfl`). -/

mutual
inductive FV where
  | str : Bytes → FV
  | groups : GrpList → FV
deriving DecidableEq
inductive GrpList where
  | nil : GrpList
  | cons : EntList → GrpList → GrpList
deriving DecidableEq
inductive EntList where
  | nil : EntList
  | cons : Nat → FV → EntList → EntList
deriving DecidableEq
end

def EntList.get? : EntList → Nat → Option FV
  | .nil, _ => none
  | .cons k w rest, t => if k = t then some w else rest.get? t

/-- `tag in message` (`__contains__` via `__getitem__`). -/
def EntList.mem (m : EntList) (t : Nat) : Bool := (m.get? t).isSome

/-- `message[tag] = value`: replace in place if the key exists, else append
at the end (the `OrderedDict` update rule). -/
def EntList.set : EntList → Nat → FV → EntList
  | .nil, t, v => .cons t v .nil
  | .cons k w rest, t, v =>
      if k = t then .cons k v rest else .cons k w (rest.set t v)

/-- `del message[tag]` (no-op when absent; Python raises `KeyError` then,
a case no modelled code path reaches with an absent key). -/
def EntList.erase : EntList → Nat → EntList
  | .nil, _ => .nil
  | .cons k w rest, t => if k = t then rest else .cons k w (rest.erase t)

def EntList.toList : EntList → List (Nat × FV)
  | .nil => []
  | .cons k w rest => (k, w) :: rest.toList

def EntList.keys (m : EntList) : List Nat := m.toList.map Prod.fst

def EntList.size (m : EntList) : Nat := m.toList.length

def EntList.ofList : List (Nat × FV) → EntList
  | [] => .nil
  | (k, w) :: rest => .cons k w (EntList.ofList rest)

/-- `message.update(source)` / the constructor's `source=` handling:
assign each (tag, value) pair in order. -/
def EntList.setAll (m : EntList) (l : List (Nat × FV)) : EntList :=
  l.foldl (fun acc p => acc.set p.1 p.2) m

def GrpList.toList : GrpList → List EntList
  | .nil => []
  | .cons g rest => g :: rest.toList

def GrpList.ofList : List EntList → GrpList
  | [] => .nil
  | g :: rest => .cons g (GrpList.ofList rest)

def GrpList.length : GrpList → Nat
  | .nil => 0
  | .cons _ rest => rest.length + 1

/-- `list.append(x)` at the end of a group list. -/
def GrpList.push : GrpList → EntList → GrpList
  | .nil, g => .cons g .nil
  | .cons h rest, g => .cons h (rest.push g)

/-- Replace the last group of a (nonempty) group list with `f` of it;
models mutation of the level's aliased `current group`. -/
def GrpList.updateLast : GrpList → (EntList → EntList) → GrpList
  | .nil, _ => .nil
  | .cons g .nil, f => .cons (f g) .nil
  | .cons g (GrpList.cons h rest), f => .cons g ((GrpList.cons h rest).updateLast f)

def GrpList.getLast? : GrpList → Option EntList
  | .nil => none
  | .cons g .nil => some g
  | .cons _ (GrpList.cons h rest) => (GrpList.cons h rest).getLast?

/-- `FIXMessage()` pre-seeds the header tags (classic default
`[8, 9, 35, 49, 56]`) with the empty value. -/
def fixMessageNew (headerFields : List Nat) : EntList :=
  EntList.nil.setAll (headerFields.map (fun t => (t, FV.str [])))

/-- `FIXMessage(source=...)`: pre-seed the headers, then apply the source. -/
def fixMessageOfSource (headerFields : List Nat) (src : List (Nat × FV)) :
    EntList :=
  (fixMessageNew headerFields).setAll src

/-- The entries of a message on tags other than the framer's 8, 9, 10,
in iteration order. -/
def nonFramerEntries (m : EntList) : List (Nat × FV) :=
  m.toList.filter (fun p => p.1 != 8 && p.1 != 9 && p.1 != 10)

/-!  ## The encoder (`FIXMessage.to_binary`, `fixtest/fix/message.py`) -/

/-- `_single_field`: the bytes `tag=value\x01` for a scalar value. -/
def singleField (tag : Nat) (value : Bytes) : Bytes :=
  natToBytes tag ++ [61] ++ value ++ [1]

/-- The scalar bytes of a value as `_single_field` renders it.  Every value
reaching `_single_field` in the source is a byte/character string (tag 8's
begin string and the freshly assigned tags 9/10); a repeating-group list
would be rendered through Python `repr`, which no code path and no claim
exercises, so that case is mapped to the empty string here. -/
def fvScalarBytes : FV → Bytes
  | .str s => s
  | .groups _ => []

mutual
/-- `_write_field`: scalar fields directly; a repeating group emits the
group count under the lead tag and then every subgroup's fields in order. -/
def writeField (tag : Nat) : FV → Bytes
  | .str s => singleField tag s
  | .groups gs => singleField tag (natToBytes gs.length) ++ writeGroups gs
def writeGroups : GrpList → Bytes
  | .nil => []
  | .cons g rest => writeEntries g ++ writeGroups rest
def writeEntries : EntList → Bytes
  | .nil => []
  | .cons k v rest => writeField k v ++ writeEntries rest
end

/-- The skip test of the `to_binary` body loop: a tag is skipped when an
`include` list is given and does not contain it, when an `exclude` list is
given and contains it, or when it is one of the framer tags 8, 9, 10. -/
def skipTag (includes excludes : Option (List Nat)) (k : Nat) : Bool :=
  (match includes with | some l => !(l.contains k) | none => false) ||
  (match excludes with | some l => l.contains k | none => false) ||
  (k == 8 || k == 9 || k == 10)

/-- The body-building loop of `to_binary`: iterate the message entries in
order, skipping per `skipTag`, writing each remaining field. -/
def bodyBytes (includes excludes : Option (List Nat)) : EntList → Bytes
  | .nil => []
  | .cons k v rest =>
      (if skipTag includes excludes k then [] else writeField k v) ++
        bodyBytes includes excludes rest

/-- `'%03d' % n`: decimal rendering zero-padded on the left to width 3. -/
def pad3 (n : Nat) : Bytes :=
  List.replicate (3 - (natToBytes n).length) 48 ++ natToBytes n

/-- `FIXMessage.to_binary`: body from the non-framer entries, then
`self[9] = str(len(body))`, prepend the tag-8 and tag-9 fields, compute the
checksum, delete and re-append tag 10, and emit.  Reading `self[8]` on a
message without tag 8 raises `KeyError` in the source (`.error ()` here;
`FIXMessage` always pre-seeds tag 8). -/
def toBinary (includes excludes : Option (List Nat)) (m : EntList) :
    Except Unit (EntList × Bytes) :=
  let body := bodyBytes includes excludes m
  let m1 := m.set 9 (FV.str (natToBytes body.length))
  match m1.get? 8 with
  | none => .error ()
  | some v8 =>
      let mess := singleField 8 (fvScalarBytes v8) ++
        singleField 9 (natToBytes body.length) ++ body
      let chk := checksum mess 0
      let m2 := (m1.erase 10).set 10 (FV.str (pad3 chk))
      .ok (m2, mess ++ singleField 10 (pad3 chk))

/-!  ## The parser (`FIXParser`, `fixtest/fix/parser.py`)

The parser is a byte-stream state machine.  `on_data_received` appends to an
internal buffer and repeatedly splits off `tag=value` fields at the 0x01
delimiter, skipping the declared extent of a binary field; group levels are
kept on an explicit stack.  `FIXParserError` / `FIXLengthTooLongError` are
caught by `on_data_received`, which resets the parser (flushing the buffer)
and reports the error to the receiver; any other Python exception
(`ValueError` from `int`, `TypeError` from indexing a `None` group)
propagates out of the parser, modelled as a `crash` outcome. -/

structure ParserConfig where
  headerFields : List Nat := [8, 9, 35, 49, 56]
  binaryFields : List Nat := []
  groupFields : List (Nat × List Nat) := []
  maxLength : Nat := 2048
deriving DecidableEq

/-- One entry of the group-level stack: the lead tag, the list of assembled
sub-groups, and whether a current group exists.  Python keeps `level['group']`
as an alias of the last element of `level['list']`; here the current group,
when `hasCur` is set, is that last element. -/
structure Level where
  tag : Nat
  glist : GrpList
  hasCur : Bool
deriving DecidableEq

structure ParserState where
  isParsing : Bool
  message : EntList
  chksum : Nat
  msgLength : Nat
  binaryLength : Int
  binaryTag : Nat
  levelStack : List Level    -- head is the innermost level (end of Python's list)
  buffer : Bytes
deriving DecidableEq

/-- `FIXParserError` (malformed message) and `FIXLengthTooLongError`. -/
inductive FIXError where
  | parserError
  | lengthTooLong
deriving DecidableEq

/-- Python exceptions the source does not catch. -/
inductive PyError where
  | typeError
  | valueError
deriving DecidableEq

inductive ParseFail where
  | err (e : FIXError)    -- caught by `on_data_received`'s except clauses
  | crash (e : PyError)   -- uncaught, propagates
  | fuelOut               -- artifact of the fuel encoding, never reachable
deriving DecidableEq

/-- Fresh parser state (`FIXParser.__init__` / `reset`). -/
def FIXParser.init (cfg : ParserConfig) : ParserState :=
  { isParsing := false
    message := fixMessageNew cfg.headerFields
    chksum := 0
    msgLength := 0
    binaryLength := -1
    binaryTag := 0
    levelStack := []
    buffer := [] }

/-- `reset(flush_buffer=...)`: clear everything except (optionally) the
input buffer. -/
def ParserState.reset (cfg : ParserConfig) (st : ParserState)
    (flushBuffer : Bool) : ParserState :=
  { FIXParser.init cfg with buffer := if flushBuffer then [] else st.buffer }

/-- `_parse_field`: split `id=value` at the first `=`; the id must be a
(nonempty) decimal number. -/
def parseField (field : Bytes) : Except FIXError (Nat × Bytes) :=
  match findFrom 61 0 field with
  | none => .error .parserError
  | some delim =>
      match pyParseNat? (field.take delim) with
      | none => .error .parserError
      | some tagId => .ok (tagId, field.drop (delim + 1))

/-- `_update_length`: add `len(field) + 1` for tags outside {8, 9, 10}, then
fail if the running length reached `max_length`. -/
def updateLength (cfg : ParserConfig) (st : ParserState) (field : Bytes)
    (tagId : Nat) : Except FIXError ParserState :=
  let newLen :=
    if tagId = 8 ∨ tagId = 9 ∨ tagId = 10 then st.msgLength
    else st.msgLength + field.length + 1
  if newLen ≥ cfg.maxLength then .error .lengthTooLong
  else .ok { st with msgLength := newLen }

/-- `_update_checksum`: for tags other than 10, fold the field into the
running checksum and add one more (the source's `+ 1` per field — the
delimiter byte — applied outside the mod). -/
def updateChecksum (st : ParserState) (field : Bytes) (tagId : Nat) :
    ParserState :=
  if tagId = 10 then st
  else { st with chksum := checksum field st.chksum + 1 }

/-- `_update_binary`: entering a binary length field records the expected
extent `len(str(tag+1)) + int(value)`; the field after it must carry tag
`tag+1` and have exactly the expected length. -/
def updateBinary (cfg : ParserConfig) (st : ParserState) (field : Bytes)
    (tagId : Nat) (value : Bytes) : Except ParseFail ParserState :=
  if st.binaryTag = 0 then
    if tagId ∈ cfg.binaryFields then
      match pyParseNat? value with
      | none => .error (.crash .valueError)
      | some n =>
          let bl : Int := (natToBytes (tagId + 1)).length + n
          if bl > (cfg.maxLength : Int) then .error (.err .lengthTooLong)
          else .ok { st with binaryLength := bl, binaryTag := tagId }
    else .ok { st with binaryLength := -1 }
  else
    if tagId ≠ st.binaryTag + 1 then .error (.err .parserError)
    else if (field.length : Int) ≠ st.binaryLength + 1 then
      .error (.err .parserError)
    else .ok { st with binaryTag := 0, binaryLength := -1 }

/-- The member-tag set of a group lead tag (`self._group_fields[tag]`; every
stacked level's tag is a key of `group_fields`, so the `KeyError` branch of
the source is unreachable and the default `[]` is never consulted). -/
def membersOf (gf : List (Nat × List Nat)) (t : Nat) : List Nat :=
  (gf.lookup t).getD []

def isGroupField (gf : List (Nat × List Nat)) (t : Nat) : Bool :=
  (gf.lookup t).isSome

/-- The member branch of `_update_field`: allocate a fresh sub-group when
there is no current group or the tag is already present in it, then store
the tag in the current group. -/
def levelStoreMember (lvl : Level) (tagId : Nat) (value : FV) : Level :=
  match (if lvl.hasCur then lvl.glist.getLast? else none) with
  | none =>
      { lvl with glist := lvl.glist.push (EntList.nil.set tagId value),
                 hasCur := true }
  | some g =>
      if g.mem tagId then
        { lvl with glist := lvl.glist.push (EntList.nil.set tagId value) }
      else
        { lvl with glist := lvl.glist.updateLast (fun gg => gg.set tagId value) }

/-- `parent_level['group'][lead] = list`: write the assembled list into the
parent's current group; `None` current group raises `TypeError`. -/
def popAttach (parent : Level) (lead : Nat) (gs : GrpList) : Option Level :=
  if parent.hasCur then
    some { parent with
             glist := parent.glist.updateLast (fun g => g.set lead (FV.groups gs)) }
  else none

/-- The pop loop of `_update_field`: attach the popped level into each
parent in turn until a level admitting `tagId` is found (kept on the stack)
or the stack empties (attach to the top-level message). -/
def popLoop (gf : List (Nat × List Nat)) (tagId : Nat) :
    Level → List Level → EntList → Except ParseFail (EntList × List Level)
  | lvl, [], msg => .ok (msg.set lvl.tag (FV.groups lvl.glist), [])
  | lvl, p :: rest, msg =>
      match popAttach p lvl.tag lvl.glist with
      | none => .error (.crash .typeError)
      | some p' =>
          if tagId ∈ membersOf gf p'.tag then .ok (msg, p' :: rest)
          else popLoop gf tagId p' rest msg

/-- `_update_field`: a group lead tag pushes a new level; otherwise the tag
goes to the top-level message (empty stack), into the active level's current
group (member tag), or pops levels and is reprocessed.  The recursion after
popping is run on fuel; `stack.length` fuel always suffices. -/
def updateField (gf : List (Nat × List Nat)) :
    Nat → Nat → FV → EntList → List Level →
    Except ParseFail (EntList × List Level)
  | fuel, tagId, value, msg, stack =>
    if isGroupField gf tagId then
      .ok (msg, { tag := tagId, glist := .nil, hasCur := false } :: stack)
    else
      match stack with
      | [] => .ok (msg.set tagId value, [])
      | lvl :: rest =>
          if tagId ∈ membersOf gf lvl.tag then
            .ok (msg, levelStoreMember lvl tagId value :: rest)
          else
            match popLoop gf tagId lvl rest msg with
            | .error e => .error e
            | .ok (msg', stack') =>
                match fuel with
                | 0 => .error .fuelOut
                | fuel + 1 => updateField gf fuel tagId value msg' stack'

/-- Parser callbacks delivered to the receiver, in order. -/
inductive Event where
  | msg (m : EntList) (bodyLength : Nat) (chksum : Nat)
  | err (e : FIXError)
deriving DecidableEq

/-- Result of running the `on_data_received` loop. -/
inductive LoopOut where
  | done (st : ParserState) (events : List Event)
  | crash (events : List Event) (e : PyError)
  | fuelOut
deriving DecidableEq

/-- The processing loop of `on_data_received`: while the buffer holds a
delimiter beyond any pending binary extent, split off one field, check the
tag-8 framing, run the four update steps, and deliver the message on tag 10.
A `FIXParserError`/`FIXLengthTooLongError` resets (flushing) and is
reported; the loop then ends (the source's `except` sits outside the loop). -/
def runLoop (cfg : ParserConfig) : Nat → ParserState → List Event → LoopOut
  | fuel, st, evs =>
    if ¬ (st.buffer ≠ [] ∧
        (findFrom 1 (st.binaryLength + 1).toNat st.buffer).isSome) then
      .done st evs
    else if st.binaryLength > 0 ∧ (st.buffer.length : Int) < st.binaryLength then
      .done st evs
    else
      match fuel with
      | 0 => .fuelOut
      | fuel + 1 =>
          match findFrom 1 (st.binaryLength + 1).toNat st.buffer with
          | none => .fuelOut
          | some delim =>
              let field := st.buffer.take delim
              let st1 := { st with buffer := st.buffer.drop (delim + 1) }
              match parseField field with
              | .error e => .done (st1.reset cfg true) (evs ++ [.err e])
              | .ok (tagId, value) =>
                  if tagId = 8 ∧ st1.isParsing then
                    .done (st1.reset cfg true) (evs ++ [.err .parserError])
                  else if tagId ≠ 8 ∧ ¬ st1.isParsing then
                    .done (st1.reset cfg true) (evs ++ [.err .parserError])
                  else
                    let st2 :=
                      if tagId = 8 then { st1 with isParsing := true } else st1
                    match updateLength cfg st2 field tagId with
                    | .error e => .done (st2.reset cfg true) (evs ++ [.err e])
                    | .ok st3 =>
                        let st4 := updateChecksum st3 field tagId
                        match updateBinary cfg st4 field tagId value with
                        | .error (.err e) =>
                            .done (st4.reset cfg true) (evs ++ [.err e])
                        | .error (.crash e) => .crash evs e
                        | .error .fuelOut => .fuelOut
                        | .ok st5 =>
                            match updateField cfg.groupFields
                                st5.levelStack.length tagId (FV.str value)
                                st5.message st5.levelStack with
                            | .error (.err e) =>
                                .done (st5.reset cfg true) (evs ++ [.err e])
                            | .error (.crash e) => .crash evs e
                            | .error .fuelOut => .fuelOut
                            | .ok (msg', stack') =>
                                let st6 := { st5 with message := msg',
                                                      levelStack := stack' }
                                if tagId = 10 then
                                  runLoop cfg fuel (st6.reset cfg false)
                                    (evs ++ [.msg st6.message st6.msgLength
                                                  st6.chksum])
                                else runLoop cfg fuel st6 evs

/-- `on_data_received(data)`: append to the buffer and run the loop (the
`is_receiving_data` reentrancy guard is moot in this single-threaded
model). -/
def onDataReceived (cfg : ParserConfig) (st : ParserState) (data : Bytes) :
    LoopOut :=
  let st1 := { st with buffer := st.buffer ++ data }
  runLoop cfg (st1.buffer.length + 1) st1 []

/-!  ## The session engine (`FIXProtocol`, `fixtest/fix/protocol.py`)

Wall-clock instants are passed in explicitly (`datetime.datetime.now()` at
the call).  Values are byte strings as on the Python 2 wire (`str` is bytes
there); `len(str(v)) == 0` holds exactly for the empty string, and `str` of
a repeating-group list is never empty. -/

structure DateTime where
  year : Nat
  month : Nat
  day : Nat
  hour : Nat
  minute : Nat
  second : Nat
deriving DecidableEq

/-- Left-pad a decimal rendering with zeros to width 2 (`%02d`). -/
def pad2 (n : Nat) : Bytes :=
  List.replicate (2 - (natToBytes n).length) 48 ++ natToBytes n

/-- Left-pad a decimal rendering with zeros to width 4 (`%04d`, `%Y`). -/
def pad4 (n : Nat) : Bytes :=
  List.replicate (4 - (natToBytes n).length) 48 ++ natToBytes n

/-- `format_time` from `fixtest/fix/utils.py`: `strftime("%Y%m%d-%H:%M:%S")`. -/
def formatTime (t : DateTime) : Bytes :=
  pad4 t.year ++ pad2 t.month ++ pad2 t.day ++ [45] ++
    pad2 t.hour ++ [58] ++ pad2 t.minute ++ [58] ++ pad2 t.second

/-- The pieces of `link_config` (and the `filter_heartbeat` attribute) the
modelled protocol paths consult. -/
structure ProtoConfig where
  protocolVersion : Bytes
  requiredFields : List Nat
  senderCompid : Bytes
  targetCompid : Bytes
  filterHeartbeat : Bool
deriving DecidableEq

structure ProtoState where
  sendSeqno : Nat
  lastSendTime : DateTime
  lastReceivedTime : DateTime
  testrequestId : Option Bytes
deriving DecidableEq

/-- `tag not in message or len(str(message[tag])) == 0`: the required-field
failure test (`str` of a group list is never empty). -/
def requiredFieldMissing (m : EntList) (t : Nat) : Bool :=
  match m.get? t with
  | none => true
  | some (.str s) => s.isEmpty
  | some (.groups _) => false

/-- `int(value)` on a stored field value: group lists raise `TypeError`,
non-numeric strings `ValueError` (both modelled as `none`). -/
def pyIntOfFV : FV → Option Nat
  | .str s => pyParseNat? s
  | .groups _ => none

/-- Result of `prepare_send_message`.  The source mutates the protocol
object and the message *before* the required-field check, so the mutated
state and message are returned even when the check raises
`FIXDataError(tag)` (`error = some tag`). -/
structure PrepareResult where
  state : ProtoState
  message : EntList
  error : Option Nat
deriving DecidableEq

/-- `FIXProtocol.prepare_send_message`: pre-increment the sequence number,
stamp tags 8, 34 and 52, then check the required fields (9 and 10 are
skipped: they are filled by `to_binary`); `last_send_time` is updated only
on success. -/
def prepareSendMessage (cfg : ProtoConfig) (st : ProtoState) (now : DateTime)
    (m : EntList) : PrepareResult :=
  let seqno := st.sendSeqno + 1
  let m1 := ((m.set 8 (FV.str cfg.protocolVersion)).set 34
      (FV.str (natToBytes seqno))).set 52 (FV.str (formatTime now))
  let st1 := { st with sendSeqno := seqno }
  match cfg.requiredFields.find?
      (fun t => !(t == 9 || t == 10) && requiredFieldMissing m1 t) with
  | some t => { state := st1, message := m1, error := some t }
  | none => { state := { st1 with lastSendTime := now }, message := m1,
              error := none }

/-- Successive `prepare_send_message` calls, threading the (possibly
error-mutated) protocol state. -/
def prepareSeq (cfg : ProtoConfig) :
    ProtoState → List (DateTime × EntList) → List PrepareResult
  | _, [] => []
  | st, (now, m) :: rest =>
      let r := prepareSendMessage cfg st now m
      r :: prepareSeq cfg r.state rest

/-- The outward calls `FIXProtocol.on_message_received` makes, in order:
`transport.send_message(...)` and `transport.on_message_received(...)`. -/
inductive Action where
  | send (m : EntList)
  | forward (m : EntList)
deriving DecidableEq

/-- Session-level failures: `FIXDataError(reference_id)` plus the Python
exceptions (`KeyError` from `message[...]`, `ValueError`/`TypeError` from
`int(...)`) that the source does not catch. -/
inductive ProtoException where
  | dataError (refId : Nat)
  | keyError
  | valueError
deriving DecidableEq

/-- `FIXProtocol.on_message_received(message, message_length, checksum)`:
required fields, then protocol version (tag 8), then body length (tag 9)
against the parser's tally, then checksum (tag 10) against the parser's
tally; afterwards heartbeat bookkeeping, the TestRequest auto-response and
the heartbeat filter decide what is sent and what is forwarded. -/
def protoOnMessageReceived (cfg : ProtoConfig) (st : ProtoState)
    (now : DateTime) (m : EntList) (messageLength chksum : Nat) :
    Except ProtoException (ProtoState × List Action) :=
  match cfg.requiredFields.find? (fun t => requiredFieldMissing m t) with
  | some t => .error (.dataError t)
  | none =>
  match m.get? 8 with
  | none => .error .keyError
  | some v8 =>
  if v8 ≠ FV.str cfg.protocolVersion then .error (.dataError 8)
  else
  match m.get? 9 with
  | none => .error .keyError
  | some v9 =>
  match pyIntOfFV v9 with
  | none => .error .valueError
  | some n9 =>
  if messageLength ≠ n9 then .error (.dataError 9)
  else
  match m.get? 10 with
  | none => .error .keyError
  | some v10 =>
  match pyIntOfFV v10 with
  | none => .error .valueError
  | some n10 =>
  if chksum ≠ n10 then .error (.dataError 10)
  else
  match m.get? 35 with
  | none => .error .keyError
  | some v35 =>
  let isHeartbeat : Bool := v35 == FV.str (bstr "0")
  let isTestRequest : Bool := v35 == FV.str (bstr "1")
  let trMatch : Bool :=
    match st.testrequestId with
    | none => false
    | some tid => ((m.get? 112).getD (FV.str [])) == FV.str tid
  let st1 := { st with
    lastReceivedTime := now
    testrequestId :=
      if isHeartbeat && trMatch then none else st.testrequestId }
  let forwardActs : List Action :=
    if !cfg.filterHeartbeat || (!isHeartbeat && !isTestRequest) then
      [.forward m]
    else []
  if isTestRequest then
    match m.get? 112 with
    | none => .error .keyError
    | some v112 =>
        let reply := fixMessageOfSource [8, 9, 35, 49, 56]
          [(35, FV.str (bstr "0")), (112, v112),
           (49, FV.str cfg.senderCompid), (56, FV.str cfg.targetCompid)]
        .ok (st1, .send reply :: forwardActs)
  else .ok (st1, forwardActs)

/-!  ## The message queue (`MessageQueue`, `fixtest/base/queue.py`) and the
transport filter (`FIXTransport.on_message_received`). -/

structure MessageQueue where
  items : List EntList
  isCancelled : Bool
deriving DecidableEq

/-- `add(message)`: non-blocking enqueue. -/
def MessageQueue.add (q : MessageQueue) (m : EntList) : MessageQueue :=
  { q with items := q.items ++ [m] }

/-- `cancel()`: set the cancel flag. -/
def MessageQueue.cancel (q : MessageQueue) : MessageQueue :=
  { q with isCancelled := true }

/-- `FIXTransport.on_message_received`: enqueue unless the message is a
Heartbeat or TestRequest (this layer always filters, regardless of the
protocol's `filter_heartbeat` flag).  A message without tag 35 makes
`msg_type()` raise `KeyError` in the source; the queue is untouched then. -/
def transportOnMessageReceived (q : MessageQueue) (m : EntList) :
    MessageQueue :=
  match m.get? 35 with
  | some v =>
      if v = FV.str (bstr "0") ∨ v = FV.str (bstr "1") then q else q.add m
  | none => q

/-- Deliver a run of protocol actions to the transport: forwarded messages
go through `FIXTransport.on_message_received` into the queue; sends go out
on the wire and never touch the queue. -/
def applyActions (q : MessageQueue) : List Action → MessageQueue
  | [] => q
  | .send _ :: rest => applyActions q rest
  | .forward mm :: rest => applyActions (transportOnMessageReceived q mm) rest

/-- One observation of the shared state per iteration of the
`wait_for_message` polling loop: the elapsed whole seconds at the loop
head, the cancel flag, and the outcome of the blocking
`self.get(True, timeout=1.0)`. -/
structure WaitObs where
  elapsedSeconds : Nat
  cancelled : Bool
  dequeued : Option EntList
deriving DecidableEq

inductive WaitOutcome where
  | msg (m : EntList)
  | timeoutError (title : String)
  | interrupted
  | stillWaiting
deriving DecidableEq

/-- `MessageQueue.wait_for_message(title, timeout)`: poll once per second;
each iteration first raises `FixtestTimeoutError(title)` when more than
`timeout` whole seconds have elapsed, then raises the interrupted error when
the queue was cancelled, then blocks up to a second for a message.
`obs i` is what iteration `i` observes; the fuel bounds how many
iterations are examined (`stillWaiting` = the loop is still polling). -/
def waitForMessage (title : String) (timeout : Nat) (obs : Nat → WaitObs) :
    Nat → Nat → WaitOutcome
  | 0, _ => .stillWaiting
  | fuel + 1, i =>
      if (obs i).elapsedSeconds > timeout then .timeoutError title
      else if (obs i).cancelled then .interrupted
      else
        match (obs i).dequeued with
        | some m => .msg m
        | none => waitForMessage title timeout obs fuel (i + 1)

/-- The first message delivered by a parser run, with its tallied body
length and checksum. -/
def firstDelivered (out : LoopOut) : Option (EntList × Nat × Nat) :=
  match out with
  | .done _ (Event.msg m bl ck :: _) => some (m, bl, ck)
  | _ => none

/-!  ## Symbolic descriptions of a scalar-field parser run -/

/-- The wire encoding of a list of scalar `tag=value` fields. -/
def encodeFields (l : List (Nat × Bytes)) : Bytes :=
  (l.map (fun p => singleField p.1 p.2)).flatten

/-- The parser's checksum tally over a run of scalar fields:
`checksum(field) + 1` each (the `_update_checksum` step). -/
def tallyChecksum (l : List (Nat × Bytes)) (c : Nat) : Nat :=
  l.foldl (fun c p => checksum (natToBytes p.1 ++ 61 :: p.2) c + 1) c

/-- The parser's body-length tally over a run of scalar fields:
`len(field) + 1` per field outside tags 8, 9, 10 (`_update_length`). -/
def tallyLength (l : List (Nat × Bytes)) (n : Nat) : Nat :=
  l.foldl (fun n p =>
    if p.1 = 8 ∨ p.1 = 9 ∨ p.1 = 10 then n
    else n + (natToBytes p.1 ++ 61 :: p.2).length + 1) n

/-- Assign a run of scalar fields into a message in order. -/
def setAllStr (m : EntList) (l : List (Nat × Bytes)) : EntList :=
  l.foldl (fun m p => m.set p.1 (FV.str p.2)) m

/-!  ## Concrete instances used by the evaluation theorems -/

def dt0 : DateTime := ⟨2026, 1, 1, 0, 0, 0⟩

/-- A parser configured as in the repository's protocol tests
(`header_fields = [8, 9, 35]`, no binary or group fields). -/
def c2cfg : ParserConfig := { headerFields := [8, 9, 35] }

/-- The message `{8: FIX.4.2, 35: A, 58: w}` whose encoding sums to a
multiple of 256. -/
def c2msg : EntList := (fixMessageNew [8, 9, 35]).setAll
  [(8, FV.str (bstr "FIX.4.2")), (35, FV.str (bstr "A")),
   (58, FV.str (bstr "w"))]

/-- The wire form `to_binary` produces for `c2msg` (checksum field 000). -/
def c2wire : Bytes := toFix ["8=FIX.4.2", "9=10", "35=A", "58=w", "10=000"]

/-- `c2wire` up to the last 0x01 before the `10=` field. -/
def c2prefix : Bytes := toFix ["8=FIX.4.2", "9=10", "35=A", "58=w"]

def c2proto : ProtoConfig :=
  { protocolVersion := bstr "FIX.4.2"
    requiredFields := [8, 9, 35]
    senderCompid := bstr "s"
    targetCompid := bstr "t"
    filterHeartbeat := false }

def c2pst : ProtoState :=
  { sendSeqno := 0
    lastSendTime := dt0
    lastReceivedTime := dt0
    testrequestId := none }

/-- A parser pre-seeding only the framer tags (`header_fields=[8, 9]`),
used for the scalar round-trip. -/
def c1cfg : ParserConfig := { headerFields := [8, 9] }

/-- A parser with the repeating group `100 → {101, 102}`. -/
def c1gCfg : ParserConfig :=
  { headerFields := [8, 9], groupFields := [(100, [101, 102])] }

/-- A message holding the group `100 = [{101: a}, {102: b}]` — two
sub-groups of one member tag each. -/
def c1gMsg : EntList :=
  EntList.cons 8 (FV.str (bstr "FIX.4.2"))
    (EntList.cons 9 (FV.str [])
      (EntList.cons 100 (FV.groups
        (GrpList.cons (EntList.cons 101 (FV.str (bstr "a")) EntList.nil)
          (GrpList.cons (EntList.cons 102 (FV.str (bstr "b")) EntList.nil)
            GrpList.nil)))
        EntList.nil))

/-- The `to_binary` output for `c1gMsg` (body length 18, checksum 100). -/
def c1gWire : Bytes :=
  toFix ["8=FIX.4.2", "9=18", "100=2", "101=a", "102=b", "10=100"]

/-- What the parser reassembles from `c1gWire`: a single sub-group holding
both member tags (the count under tag 100 is discarded, and a sub-group
boundary is recognised only at a repeated member tag). -/
def c1gDecoded : EntList :=
  EntList.cons 8 (FV.str (bstr "FIX.4.2"))
    (EntList.cons 9 (FV.str (bstr "18"))
      (EntList.cons 100 (FV.groups
        (GrpList.cons
          (EntList.cons 101 (FV.str (bstr "a"))
            (EntList.cons 102 (FV.str (bstr "b")) EntList.nil))
          GrpList.nil))
        (EntList.cons 10 (FV.str (bstr "100")) EntList.nil)))

/-- The message `{8: FIX.4.2, 35: A}` used to exercise the encoder. -/
def c3msg : EntList :=
  EntList.cons 8 (FV.str (bstr "FIX.4.2"))
    (EntList.cons 35 (FV.str (bstr "A")) EntList.nil)

/-- A decoded message whose tag 9 reads 5 and tag 10 reads 0, used to
exercise the session validation. -/
def c4msg : EntList :=
  EntList.cons 8 (FV.str (bstr "FIX.4.2"))
    (EntList.cons 9 (FV.str (bstr "5"))
      (EntList.cons 35 (FV.str (bstr "A"))
        (EntList.cons 10 (FV.str (bstr "000")) EntList.nil)))

/-- A valid TestRequest (tag 35 = 1) with request id `tr1`, body length 13
and checksum 186 as the parser tallies them. -/
def c9msg : EntList :=
  EntList.cons 8 (FV.str (bstr "FIX.4.2"))
    (EntList.cons 9 (FV.str (bstr "13"))
      (EntList.cons 35 (FV.str (bstr "1"))
        (EntList.cons 112 (FV.str (bstr "tr1"))
          (EntList.cons 10 (FV.str (bstr "186")) EntList.nil))))

/-- Group declarations where member tag 200 of group 100 is itself a group
lead tag. -/
def c6gf : List (Nat × List Nat) := [(100, [101, 200]), (200, [201])]

/-- An active level for group 100 whose current sub-group is `{101: a}`
(tag 200 is not yet present in it). -/
def c6lvl : Level :=
  { tag := 100
    glist := GrpList.cons (EntList.cons 101 (FV.str (bstr "a")) EntList.nil)
      GrpList.nil
    hasCur := true }

def c6val : FV := FV.str (bstr "2")

/-- The header entries after the parser has consumed `8=FIX.4.2` and
`9=18` of `c1gWire`. -/
def c1gHdr : EntList :=
  EntList.cons 8 (FV.str (bstr "FIX.4.2"))
    (EntList.cons 9 (FV.str (bstr "18")) EntList.nil)

/-- The group-100 level right after its lead tag arrived. -/
def c1gLvl0 : Level := { tag := 100, glist := GrpList.nil, hasCur := false }

/-- The group-100 level after member `101=a`. -/
def c1gLvl1 : Level :=
  { tag := 100
    glist := GrpList.cons (EntList.cons 101 (FV.str (bstr "a")) EntList.nil)
      GrpList.nil
    hasCur := true }

/-- The group-100 level after member `102=b`: still a single sub-group. -/
def c1gLvl2 : Level :=
  { tag := 100
    glist := GrpList.cons
      (EntList.cons 101 (FV.str (bstr "a"))
        (EntList.cons 102 (FV.str (bstr "b")) EntList.nil))
      GrpList.nil
    hasCur := true }

/-!  ## Theorems: decimal rendering -/

theorem natToBytesCore_congr (n : Nat) :
    ∀ f₁ f₂, n < f₁ → n < f₂ → natToBytesCore f₁ n = natToBytesCore f₂ n := by
  induction n using Nat.strong_induction_on with
  | _ n ih =>
    intro f₁ f₂ h₁ h₂
    match f₁, f₂, h₁, h₂ with
    | a + 1, c + 1, h₁, h₂ =>
      unfold natToBytesCore
      by_cases h10 : n < 10
      · simp [h10]
      · simp only [h10, if_false]
        have hdn : n / 10 < n := Nat.div_lt_self (by omega) (by omega)
        rw [ih (n / 10) hdn a c (by omega) (by omega)]

theorem natToBytesCore_stable (fuel n : Nat) (h : n < fuel) :
    natToBytesCore fuel n = natToBytes n :=
  natToBytesCore_congr n fuel (n + 1) h (Nat.lt_succ_self n)

theorem natToBytes_eq (n : Nat) :
    natToBytes n =
      if n < 10 then [n + 48] else natToBytes (n / 10) ++ [n % 10 + 48] := by
  have h : natToBytes n =
      if n < 10 then [n + 48] else natToBytesCore n (n / 10) ++ [n % 10 + 48] := rfl
  rw [h]
  by_cases h10 : n < 10
  · simp [h10]
  · simp only [h10, if_false]
    rw [natToBytesCore_stable n (n / 10)
      (by have : n / 10 < n := Nat.div_lt_self (by omega) (by omega); omega)]

theorem natToBytes_digits (n : Nat) : ∀ b ∈ natToBytes n, 48 ≤ b ∧ b ≤ 57 := by
  induction n using Nat.strong_induction_on with
  | _ n ih =>
    rw [natToBytes_eq]
    by_cases h10 : n < 10
    · simp only [h10, if_true, List.mem_singleton]
      rintro b rfl
      omega
    · simp only [h10, if_false, List.mem_append, List.mem_singleton]
      rintro b (hb | rfl)
      · exact ih (n / 10) (Nat.div_lt_self (by omega) (by omega)) b hb
      · have := Nat.mod_lt n (show 0 < 10 by omega)
        omega

theorem natToBytes_ne_nil (n : Nat) : natToBytes n ≠ [] := by
  rw [natToBytes_eq]
  by_cases h10 : n < 10 <;> simp [h10]

theorem bytesToNat_append_digit (bs : Bytes) (d : Nat) :
    bytesToNat (bs ++ [d]) = bytesToNat bs * 10 + (d - 48) := by
  simp [bytesToNat, List.foldl_append]

theorem bytesToNat_natToBytes (n : Nat) : bytesToNat (natToBytes n) = n := by
  induction n using Nat.strong_induction_on with
  | _ n ih =>
    rw [natToBytes_eq]
    by_cases h10 : n < 10
    · simp [h10, bytesToNat]
    · simp only [h10, if_false]
      rw [bytesToNat_append_digit,
          ih (n / 10) (Nat.div_lt_self (by omega) (by omega))]
      omega

theorem pyParseNat_natToBytes (n : Nat) :
    pyParseNat? (natToBytes n) = some n := by
  unfold pyParseNat?
  rw [if_pos, bytesToNat_natToBytes]
  refine ⟨natToBytes_ne_nil n, ?_⟩
  rw [List.all_eq_true]
  intro b hb
  have := natToBytes_digits n b hb
  simp [isDigit]
  omega

theorem natToBytes_not_one (n : Nat) : ∀ b ∈ natToBytes n, b ≠ 1 := by
  intro b hb
  have := natToBytes_digits n b hb
  omega

theorem natToBytes_not_eq61 (n : Nat) : ∀ b ∈ natToBytes n, b ≠ 61 := by
  intro b hb
  have := natToBytes_digits n b hb
  omega

/-!  ## Theorems: the message container -/

theorem EntList.get?_eq_lookup : (m : EntList) → (t : Nat) →
    m.get? t = m.toList.lookup t
  | .nil, _ => rfl
  | .cons k w rest, t => by
      simp only [EntList.get?, EntList.toList, List.lookup]
      by_cases h : k = t
      · subst h
        simp
      · have hbe : (t == k) = false := by simp [Ne.symm h]
        simp only [h, if_false, hbe, EntList.get?_eq_lookup rest t]

theorem EntList.mem_iff : (m : EntList) → (t : Nat) →
    (m.mem t = true ↔ t ∈ m.keys)
  | .nil, t => by
      simp [EntList.mem, EntList.get?, EntList.keys, EntList.toList]
  | .cons k w rest, t => by
      simp only [EntList.mem, EntList.get?, EntList.keys, EntList.toList]
      by_cases h : k = t
      · subst h
        simp
      · simp only [h, if_false, List.map_cons, List.mem_cons, Ne.symm h,
          false_or]
        exact EntList.mem_iff rest t

theorem EntList.set_toList_of_not_mem : (m : EntList) → (t : Nat) → (v : FV) →
    t ∉ m.keys → (m.set t v).toList = m.toList ++ [(t, v)]
  | .nil, _, _, _ => rfl
  | .cons k w rest, t, v, h => by
      simp only [EntList.keys, EntList.toList, List.map_cons,
        List.mem_cons] at h
      push_neg at h
      simp only [EntList.set, Ne.symm h.1, if_false, EntList.toList,
        List.cons_append, List.cons.injEq, true_and]
      exact EntList.set_toList_of_not_mem rest t v h.2

theorem map_setEntry_of_not_mem (t : Nat) (v : FV) :
    ∀ l : List (Nat × FV), t ∉ l.map Prod.fst →
      l.map (fun p => if p.1 = t then (t, v) else p) = l := by
  intro l
  induction l with
  | nil => intro _; rfl
  | cons p rest ih =>
      intro h
      simp only [List.map_cons, List.mem_cons] at h
      push_neg at h
      have hne : ¬(p.1 = t) := fun hh => h.1 (Eq.symm hh)
      simp only [List.map_cons, if_neg hne, ih h.2]

theorem EntList.set_toList_of_mem : (m : EntList) → (t : Nat) → (v : FV) →
    m.keys.Nodup → t ∈ m.keys →
    (m.set t v).toList =
      m.toList.map (fun p => if p.1 = t then (t, v) else p)
  | .nil, t, v, _, h => by simp [EntList.keys, EntList.toList] at h
  | .cons k w rest, t, v, hnd, h => by
      simp only [EntList.keys, EntList.toList, List.map_cons,
        List.nodup_cons, List.mem_cons] at hnd h
      by_cases hk : k = t
      · subst hk
        simp only [EntList.set, if_pos rfl, EntList.toList, List.map_cons]
        rw [map_setEntry_of_not_mem k v rest.toList hnd.1]
        simp
      · simp only [EntList.set, hk, if_false, EntList.toList, List.map_cons,
          EntList.set_toList_of_mem rest t v hnd.2 (h.resolve_left (by omega)),
          List.cons.injEq, and_true]

theorem EntList.get?_set_self : (m : EntList) → (t : Nat) → (v : FV) →
    (m.set t v).get? t = some v
  | .nil, t, v => by simp [EntList.set, EntList.get?]
  | .cons k w rest, t, v => by
      by_cases h : k = t
      · subst h
        simp [EntList.set, EntList.get?]
      · simp only [EntList.set, h, if_false, EntList.get?]
        exact EntList.get?_set_self rest t v

theorem EntList.get?_set_ne : (m : EntList) → (u t : Nat) → (v : FV) →
    u ≠ t → (m.set u v).get? t = m.get? t
  | .nil, u, t, v, h => by
      simp [EntList.set, EntList.get?, h]
  | .cons k w rest, u, t, v, h => by
      by_cases hk : k = u
      · subst hk
        simp [EntList.set, EntList.get?, h]
      · simp only [EntList.set, hk, if_false, EntList.get?]
        by_cases hkt : k = t
        · simp [hkt]
        · simp only [hkt, if_false]
          exact EntList.get?_set_ne rest u t v h

theorem EntList.get?_erase_ne : (m : EntList) → (u t : Nat) → u ≠ t →
    (m.erase u).get? t = m.get? t
  | .nil, u, t, h => rfl
  | .cons k w rest, u, t, h => by
      by_cases hk : k = u
      · subst hk
        simp [EntList.erase, EntList.get?, h]
      · simp only [EntList.erase, hk, if_false, EntList.get?]
        by_cases hkt : k = t
        · simp [hkt]
        · simp only [hkt, if_false]
          exact EntList.get?_erase_ne rest u t h

/-!  ## Theorems: checksum arithmetic -/

theorem checksum_append (a b : Bytes) (c : Nat) :
    checksum (a ++ b) c = checksum b (checksum a c) := by
  simp [checksum, List.foldl_append]

theorem checksum_eq_mod : (data : Bytes) → (c : Nat) → data ≠ [] →
    checksum data c = (c + data.sum) % 256
  | [], _, h => absurd rfl h
  | b :: rest, c, _ => by
      match rest with
      | [] => simp [checksum, List.sum]
      | r :: rest' =>
          have ih := checksum_eq_mod (r :: rest') ((c + b) % 256) (by simp)
          simp only [checksum, List.foldl_cons] at ih ⊢
          rw [ih, List.sum_cons, Nat.mod_add_mod]
          congr 1
          simp only [List.sum_cons]
          ring

theorem checksum_lt_256 (b : Nat) (data : Bytes) (c : Nat) :
    checksum (b :: data) c < 256 := by
  rw [checksum_eq_mod (b :: data) c (by simp)]
  exact Nat.mod_lt _ (by omega)

/-!  ## Theorems: `prepare_send_message` (claims C5 and C10) -/

theorem prepareSendMessage_message (cfg : ProtoConfig) (st : ProtoState)
    (now : DateTime) (m : EntList) :
    (prepareSendMessage cfg st now m).message =
      ((m.set 8 (FV.str cfg.protocolVersion)).set 34
        (FV.str (natToBytes (st.sendSeqno + 1)))).set 52
        (FV.str (formatTime now)) := by
  unfold prepareSendMessage
  dsimp only
  split <;> rfl

theorem prepareSendMessage_seqno (cfg : ProtoConfig) (st : ProtoState)
    (now : DateTime) (m : EntList) :
    (prepareSendMessage cfg st now m).state.sendSeqno = st.sendSeqno + 1 := by
  unfold prepareSendMessage
  dsimp only
  split <;> rfl

theorem prepareSendMessage_get34 (cfg : ProtoConfig) (st : ProtoState)
    (now : DateTime) (m : EntList) :
    (prepareSendMessage cfg st now m).message.get? 34 =
      some (FV.str (natToBytes (st.sendSeqno + 1))) := by
  rw [prepareSendMessage_message, EntList.get?_set_ne _ 52 34 _ (by omega),
    EntList.get?_set_self]

theorem prepareSeq_get34 (cfg : ProtoConfig) :
    (calls : List (DateTime × EntList)) → (st : ProtoState) →
    (prepareSeq cfg st calls).map (fun r => r.message.get? 34) =
      (List.range calls.length).map
        (fun i => some (FV.str (natToBytes (st.sendSeqno + i + 1))))
  | [], st => rfl
  | (now, m) :: rest, st => by
      simp only [prepareSeq, List.map_cons, List.length_cons,
        List.range_succ_eq_map, List.map_map, List.cons.injEq, Nat.add_zero]
      refine ⟨prepareSendMessage_get34 cfg st now m, ?_⟩
      rw [prepareSeq_get34 cfg rest (prepareSendMessage cfg st now m).state]
      simp only [prepareSendMessage_seqno]
      apply List.map_congr_left
      intro i _
      simp only [Function.comp, Nat.succ_eq_add_one]
      have h : st.sendSeqno + 1 + i + 1 = st.sendSeqno + (i + 1) + 1 := by omega
      rw [h]

/-- Claim C5: starting from send_seqno `k`, `N` successive
`prepare_send_message` calls stamp tag 34 of the prepared messages with
`k+1, …, k+N` in order (the counter is pre-incremented even on failure);
each call stamps tag 8 with the configured protocol version and tag 52 with
the formatted current time; and a required-fields tag other than 9 and 10
that is absent or empty in the stamped message makes the call fail with
`FIXDataError` for such a tag (exactly that tag when it is the only one). -/
theorem claim_C5_prepare_send_message (cfg : ProtoConfig) (st : ProtoState)
    (calls : List (DateTime × EntList)) (now : DateTime) (m : EntList)
    (t : Nat) :
    ((prepareSeq cfg st calls).map (fun r => r.message.get? 34) =
      (List.range calls.length).map
        (fun i => some (FV.str (natToBytes (st.sendSeqno + i + 1))))) ∧
    ((prepareSendMessage cfg st now m).message.get? 8 =
        some (FV.str cfg.protocolVersion) ∧
      (prepareSendMessage cfg st now m).message.get? 34 =
        some (FV.str (natToBytes (st.sendSeqno + 1))) ∧
      (prepareSendMessage cfg st now m).message.get? 52 =
        some (FV.str (formatTime now))) ∧
    ((t ∈ cfg.requiredFields → t ≠ 9 → t ≠ 10 →
      requiredFieldMissing (prepareSendMessage cfg st now m).message t = true →
      (∃ u, (prepareSendMessage cfg st now m).error = some u ∧
        u ∈ cfg.requiredFields ∧ u ≠ 9 ∧ u ≠ 10 ∧
        requiredFieldMissing (prepareSendMessage cfg st now m).message u =
          true) ∧
      ((∀ u ∈ cfg.requiredFields, u ≠ 9 → u ≠ 10 →
          requiredFieldMissing (prepareSendMessage cfg st now m).message u =
            true → u = t) →
        (prepareSendMessage cfg st now m).error = some t))) := by
  refine ⟨prepareSeq_get34 cfg calls st, ⟨?_, prepareSendMessage_get34 cfg st now m, ?_⟩, ?_⟩
  · rw [prepareSendMessage_message, EntList.get?_set_ne _ 52 8 _ (by omega),
      EntList.get?_set_ne _ 34 8 _ (by omega), EntList.get?_set_self]
  · rw [prepareSendMessage_message, EntList.get?_set_self]
  · intro ht h9 h10 hmiss
    have hmsg := prepareSendMessage_message cfg st now m
    have herr : ∀ u, (prepareSendMessage cfg st now m).error = some u ↔
        cfg.requiredFields.find?
          (fun u => !(u == 9 || u == 10) &&
            requiredFieldMissing (prepareSendMessage cfg st now m).message u)
          = some u := by
      intro u
      rw [hmsg]
      unfold prepareSendMessage
      dsimp only
      split <;> rename_i heq <;> simp_all
    have hpred : (fun u => !(u == 9 || u == 10) &&
        requiredFieldMissing (prepareSendMessage cfg st now m).message u) t
          = true := by
      simp only [Bool.and_eq_true, Bool.not_eq_true', Bool.or_eq_false_iff,
        beq_eq_false_iff_ne]
      exact ⟨⟨h9, h10⟩, hmiss⟩
    have hfind : ∃ u, cfg.requiredFields.find?
        (fun u => !(u == 9 || u == 10) &&
          requiredFieldMissing (prepareSendMessage cfg st now m).message u)
        = some u := by
      have h : (cfg.requiredFields.find?
          (fun u => !(u == 9 || u == 10) &&
            requiredFieldMissing (prepareSendMessage cfg st now m).message u)
          ).isSome := List.find?_isSome.mpr ⟨t, ht, hpred⟩
      rcases Option.isSome_iff_exists.mp h with ⟨u, hu⟩
      exact ⟨u, hu⟩
    rcases hfind with ⟨u, hu⟩
    have humem := List.mem_of_find?_eq_some hu
    have hupred := List.find?_some hu
    simp only [Bool.and_eq_true, Bool.not_eq_true', Bool.or_eq_false_iff,
      beq_eq_false_iff_ne] at hupred
    constructor
    · exact ⟨u, (herr u).mpr hu, humem, hupred.1.1, hupred.1.2, hupred.2⟩
    · intro huniq
      have : u = t := huniq u humem hupred.1.1 hupred.1.2 hupred.2
      subst this
      exact (herr u).mpr hu

/-- Claim C10: when `prepare_send_message` fails with `FIXDataError`, the
sequence number has already been consumed and tags 8, 34, 52 overwritten;
`last_send_time` is the only update skipped. -/
theorem claim_C10_failed_send_consumes_seqno (cfg : ProtoConfig)
    (st : ProtoState) (now : DateTime) (m : EntList) (t : Nat)
    (h : (prepareSendMessage cfg st now m).error = some t) :
    (prepareSendMessage cfg st now m).state.sendSeqno = st.sendSeqno + 1 ∧
    (prepareSendMessage cfg st now m).message.get? 8 =
      some (FV.str cfg.protocolVersion) ∧
    (prepareSendMessage cfg st now m).message.get? 34 =
      some (FV.str (natToBytes (st.sendSeqno + 1))) ∧
    (prepareSendMessage cfg st now m).message.get? 52 =
      some (FV.str (formatTime now)) ∧
    (prepareSendMessage cfg st now m).state.lastSendTime = st.lastSendTime := by
  refine ⟨prepareSendMessage_seqno cfg st now m, ?_,
    prepareSendMessage_get34 cfg st now m, ?_, ?_⟩
  · rw [prepareSendMessage_message, EntList.get?_set_ne _ 52 8 _ (by omega),
      EntList.get?_set_ne _ 34 8 _ (by omega), EntList.get?_set_self]
  · rw [prepareSendMessage_message, EntList.get?_set_self]
  · revert h
    unfold prepareSendMessage
    dsimp only
    split
    · intro _
      rfl
    · intro h
      simp at h

/-!  ## Theorems: inbound validation (claim C4) -/

/-- Claim C4: for a decoded message delivered to
`FIXProtocol.on_message_received` with the parser's tallied body length and
checksum, once the required-field and protocol-version checks pass: a tag 9
that (as a decimal integer) differs from the tallied body length fails with
`FIXDataError` referencing tag 9; otherwise a tag 10 that differs from the
tallied checksum fails with `FIXDataError` referencing tag 10. -/
theorem claim_C4_length_checksum_validation (cfg : ProtoConfig)
    (st : ProtoState) (now : DateTime) (m : EntList) (bl ck : Nat)
    (v9 v10 : FV) (n9 n10 : Nat)
    (hreq : ∀ t ∈ cfg.requiredFields, requiredFieldMissing m t = false)
    (h8 : m.get? 8 = some (FV.str cfg.protocolVersion))
    (h9 : m.get? 9 = some v9) (hn9 : pyIntOfFV v9 = some n9)
    (h10 : m.get? 10 = some v10) (hn10 : pyIntOfFV v10 = some n10) :
    (n9 ≠ bl →
      protoOnMessageReceived cfg st now m bl ck = .error (.dataError 9)) ∧
    (n9 = bl → n10 ≠ ck →
      protoOnMessageReceived cfg st now m bl ck = .error (.dataError 10)) := by
  have hfind : cfg.requiredFields.find? (fun t => requiredFieldMissing m t)
      = none := by
    rw [List.find?_eq_none]
    intro t ht
    simp [hreq t ht]
  constructor
  · intro hne
    simp only [protoOnMessageReceived, hfind, h8, h9, hn9]
    rw [if_neg (by simp), if_pos (by omega)]
  · intro he hne
    subst he
    simp only [protoOnMessageReceived, hfind, h8, h9, hn9, h10, hn10]
    rw [if_neg (by simp), if_neg (by omega), if_pos (by omega)]

/-!  ## Theorems: heartbeat filtering (claim C9) -/

theorem applyActions_items_mem : ∀ (acts : List Action) (q : MessageQueue)
    (mm : EntList), mm ∈ (applyActions q acts).items →
    mm ∈ q.items ∨ (mm.get? 35 ≠ some (FV.str (bstr "0")) ∧
      mm.get? 35 ≠ some (FV.str (bstr "1")))
  | [], q, mm => fun h => Or.inl h
  | .send _ :: rest, q, mm => fun h => applyActions_items_mem rest q mm h
  | .forward x :: rest, q, mm => by
      intro h
      rcases applyActions_items_mem rest (transportOnMessageReceived q x) mm h
        with hin | hprop
      · revert hin
        unfold transportOnMessageReceived
        split
        · rename_i v hv
          split
          · exact fun hin => Or.inl hin
          · rename_i hne
            push_neg at hne
            intro hin
            simp only [MessageQueue.add, List.mem_append,
              List.mem_singleton] at hin
            rcases hin with hin | rfl
            · exact Or.inl hin
            · refine Or.inr ⟨?_, ?_⟩ <;> rw [hv] <;> simp [hne.1, hne.2]
        · exact fun hin => Or.inl hin
      · exact Or.inr hprop

theorem proto_ok_forward (cfg : ProtoConfig) (st : ProtoState)
    (now : DateTime) (m' : EntList) (bl' ck' : Nat) (st2 : ProtoState)
    (acts2 : List Action) (hf : cfg.filterHeartbeat = true)
    (hok : protoOnMessageReceived cfg st now m' bl' ck' = .ok (st2, acts2)) :
    ∀ mm, Action.forward mm ∈ acts2 →
      mm.get? 35 ≠ some (FV.str (bstr "0")) ∧
      mm.get? 35 ≠ some (FV.str (bstr "1")) := by
  unfold protoOnMessageReceived at hok
  split at hok
  · simp at hok
  split at hok
  · simp at hok
  split at hok
  · simp at hok
  split at hok
  · simp at hok
  split at hok
  · simp at hok
  split at hok
  · simp at hok
  split at hok
  · simp at hok
  split at hok
  · simp at hok
  split at hok
  · simp at hok
  split at hok
  · simp at hok
  rename_i v35 h35
  simp only [hf, Bool.not_true, Bool.false_or] at hok
  split at hok
  · split at hok
    · simp at hok
    · rename_i v112 h112
      rcases hok with ⟨rfl⟩ |ok
      all_goals {
        intro mm hmm
        simp only [List.mem_cons] at hmm
        rcases hmm with h | h
        · exact absurd h (by simp)
        · revert h
          split
          · rename_i hcond
            simp only [Bool.and_eq_true, Bool.not_eq_true'] at hcond
            intro h
            simp only [List.mem_singleton, Action.forward.injEq] at h
            subst h
            rw [h35]
            constructor <;> intro hc <;> injection hc with hc <;>
              simp_all
          · intro h
            simp at h
      }
  · rcases hok with ⟨rfl⟩ | ok
    all_goals {
      intro mm hmm
      revert hmm
      split
      · rename_i hcond
        simp only [Bool.and_eq_true, Bool.not_eq_true'] at hcond
        intro h
        simp only [List.mem_singleton, Action.forward.injEq] at h
        subst h
        rw [h35]
        constructor <;> intro hc <;> injection hc with hc <;> simp_all
      · intro h
        simp at h
    }

theorem proto_ok_testrequest_reply (cfg : ProtoConfig) (st : ProtoState)
    (now : DateTime) (m' : EntList) (bl' ck' : Nat) (st2 : ProtoState)
    (acts2 : List Action) (v112 : FV)
    (hok : protoOnMessageReceived cfg st now m' bl' ck' = .ok (st2, acts2))
    (h35 : m'.get? 35 = some (FV.str (bstr "1")))
    (h112 : m'.get? 112 = some v112) :
    ∃ reply, Action.send reply ∈ acts2 ∧
      reply.get? 35 = some (FV.str (bstr "0")) ∧
      reply.get? 112 = some v112 := by
  unfold protoOnMessageReceived at hok
  split at hok
  · simp at hok
  split at hok
  · simp at hok
  split at hok
  · simp at hok
  split at hok
  · simp at hok
  split at hok
  · simp at hok
  split at hok
  · simp at hok
  split at hok
  · simp at hok
  split at hok
  · simp at hok
  split at hok
  · simp at hok
  split at hok
  · simp at hok
  rename_i v35 h35'
  rw [h35'] at h35
  injection h35 with h35
  subst h35
  simp only [beq_self_eq_true, if_true, h112] at hok
  rcases hok with ⟨rfl⟩ | ok
  all_goals {
    refine ⟨fixMessageOfSource [8, 9, 35, 49, 56]
      [(35, FV.str (bstr "0")), (112, v112),
       (49, FV.str cfg.senderCompid), (56, FV.str cfg.targetCompid)],
      List.mem_cons_self _ _, ?_, ?_⟩
    · show (((((fixMessageNew [8, 9, 35, 49, 56]).set 35
          (FV.str (bstr "0"))).set 112 v112).set 49
          (FV.str cfg.senderCompid)).set 56
          (FV.str cfg.targetCompid)).get? 35 = some (FV.str (bstr "0"))
      rw [EntList.get?_set_ne _ 56 35 _ (by omega),
        EntList.get?_set_ne _ 49 35 _ (by omega),
        EntList.get?_set_ne _ 112 35 _ (by omega), EntList.get?_set_self]
    · show (((((fixMessageNew [8, 9, 35, 49, 56]).set 35
          (FV.str (bstr "0"))).set 112 v112).set 49
          (FV.str cfg.senderCompid)).set 56
          (FV.str cfg.targetCompid)).get? 112 = some v112
      rw [EntList.get?_set_ne _ 56 112 _ (by omega),
        EntList.get?_set_ne _ 49 112 _ (by omega), EntList.get?_set_self]
  }

/-- Claim C9: with `filter_heartbeat` set, a successful
`on_message_received` never forwards a Heartbeat (tag 35 = "0") or
TestRequest (tag 35 = "1") to the transport, so the connection's
`MessageQueue` only ever gains messages of other types; yet a validated
inbound TestRequest still causes an outbound Heartbeat echoing the
TestRequest's tag 112 to be sent. -/
theorem claim_C9_heartbeat_filter (cfg : ProtoConfig) (st : ProtoState)
    (now : DateTime) (hf : cfg.filterHeartbeat = true) :
    (∀ (m' : EntList) (bl' ck' : Nat) (st2 : ProtoState)
        (acts2 : List Action) (q : MessageQueue) (mm : EntList),
      protoOnMessageReceived cfg st now m' bl' ck' = .ok (st2, acts2) →
      ((Action.forward mm ∈ acts2 →
          mm.get? 35 ≠ some (FV.str (bstr "0")) ∧
          mm.get? 35 ≠ some (FV.str (bstr "1"))) ∧
        (mm ∈ (applyActions q acts2).items → mm ∈ q.items ∨
          (mm.get? 35 ≠ some (FV.str (bstr "0")) ∧
           mm.get? 35 ≠ some (FV.str (bstr "1")))))) ∧
    (∀ (m' : EntList) (bl' ck' : Nat) (st2 : ProtoState)
        (acts2 : List Action) (v112 : FV),
      protoOnMessageReceived cfg st now m' bl' ck' = .ok (st2, acts2) →
      m'.get? 35 = some (FV.str (bstr "1")) → m'.get? 112 = some v112 →
      ∃ reply, Action.send reply ∈ acts2 ∧
        reply.get? 35 = some (FV.str (bstr "0")) ∧
        reply.get? 112 = some v112) := by
  constructor
  · intro m' bl' ck' st2 acts2 q mm hok
    exact ⟨proto_ok_forward cfg st now m' bl' ck' st2 acts2 hf hok mm,
      applyActions_items_mem acts2 q mm⟩
  · intro m' bl' ck' st2 acts2 v112 hok h35 h112
    exact proto_ok_testrequest_reply cfg st now m' bl' ck' st2 acts2 v112
      hok h35 h112

/-!  ## Theorems: the message queue (claim C8) -/

theorem wait_skip (title : String) (timeout : Nat) (obs : Nat → WaitObs) :
    ∀ (n fuel i : Nat),
      (∀ j, j < n → ¬((obs (i + j)).elapsedSeconds > timeout) ∧
        (obs (i + j)).cancelled = false ∧ (obs (i + j)).dequeued = none) →
      waitForMessage title timeout obs (n + fuel) i =
        waitForMessage title timeout obs fuel (i + n)
  | 0, fuel, i, _ => by simp
  | n + 1, fuel, i, h => by
      have h0 := h 0 (by omega)
      simp only [Nat.add_zero] at h0
      have hs : n + 1 + fuel = (n + fuel) + 1 := by omega
      rw [hs]
      have step : waitForMessage title timeout obs ((n + fuel) + 1) i =
          if (obs i).elapsedSeconds > timeout then .timeoutError title
          else if (obs i).cancelled then .interrupted
          else match (obs i).dequeued with
            | some m => .msg m
            | none => waitForMessage title timeout obs (n + fuel) (i + 1) :=
        rfl
      rw [step, if_neg h0.1, if_neg (by simp [h0.2.1]), h0.2.2]
      show waitForMessage title timeout obs (n + fuel) (i + 1) = _
      have ih := wait_skip title timeout obs n fuel (i + 1) (fun j hj => by
        have hh := h (j + 1) (by omega)
        rw [show i + (j + 1) = (i + 1) + j by omega] at hh
        exact hh)
      rw [ih, show i + 1 + n = i + (n + 1) by omega]

/-- Claim C8: a `wait_for_message` call ends in exactly one of three ways,
decided at the first polling iteration that observes anything: the timeout
outcome when more than `timeout` seconds have elapsed (checked first), the
interrupted outcome when the queue has been cancelled, and the dequeued
message otherwise; `cancel()` is idempotent and leaves the flag set, so
current and future waiters whose timeout has not already expired observe it
and fail interrupted. -/
theorem claim_C8_wait_for_message (title : String) (timeout : Nat)
    (obs : Nat → WaitObs) (i0 fuel : Nat) (q : MessageQueue)
    (hfuel : i0 < fuel)
    (hbefore : ∀ j, j < i0 → ¬((obs j).elapsedSeconds > timeout) ∧
      (obs j).cancelled = false ∧ (obs j).dequeued = none) :
    ((obs i0).elapsedSeconds > timeout →
      waitForMessage title timeout obs fuel 0 = .timeoutError title) ∧
    ((obs i0).elapsedSeconds ≤ timeout → (obs i0).cancelled = true →
      waitForMessage title timeout obs fuel 0 = .interrupted) ∧
    (∀ m, (obs i0).elapsedSeconds ≤ timeout → (obs i0).cancelled = false →
      (obs i0).dequeued = some m →
      waitForMessage title timeout obs fuel 0 = .msg m) ∧
    (q.cancel.cancel = q.cancel ∧ q.cancel.isCancelled = true) := by
  have hsplit : fuel = i0 + (fuel - i0) := by omega
  have hskip := wait_skip title timeout obs i0 (fuel - i0) 0 (fun j hj => by
    have hh := hbefore j hj
    simpa using hh)
  rw [Nat.zero_add] at hskip
  obtain ⟨k, hk⟩ : ∃ k, fuel - i0 = k + 1 := ⟨fuel - i0 - 1, by omega⟩
  have step : waitForMessage title timeout obs (k + 1) i0 =
      if (obs i0).elapsedSeconds > timeout then .timeoutError title
      else if (obs i0).cancelled then .interrupted
      else match (obs i0).dequeued with
        | some m => .msg m
        | none => waitForMessage title timeout obs k (i0 + 1) := rfl
  refine ⟨?_, ?_, ?_, ?_, ?_⟩
  · intro ht
    rw [hsplit, hskip, hk, step, if_pos ht]
  · intro ht hc
    rw [hsplit, hskip, hk, step, if_neg (by omega), if_pos (by simp [hc])]
  · intro m ht hc hd
    rw [hsplit, hskip, hk, step, if_neg (by omega), if_neg (by simp [hc]), hd]
  · simp [MessageQueue.cancel]
  · simp [MessageQueue.cancel]

/-!  ## Theorems: the encoder (claim C3) -/

theorem checksum_lt_256' (data : Bytes) (c : Nat) (h : data ≠ []) :
    checksum data c < 256 := by
  match data with
  | [] => contradiction
  | b :: rest => exact checksum_lt_256 b rest c

theorem natToBytes_length_le_two (n : Nat) (h : n < 100) :
    (natToBytes n).length ≤ 2 := by
  rw [natToBytes_eq]
  by_cases h10 : n < 10
  · simp [h10]
  · have hd : n / 10 < 10 := by omega
    simp [h10, natToBytes_eq (n / 10), hd]

theorem natToBytes_length_le_three (n : Nat) (h : n < 1000) :
    (natToBytes n).length ≤ 3 := by
  rw [natToBytes_eq]
  by_cases h10 : n < 10
  · simp [h10]
  · have hd : n / 10 < 100 := by omega
    have h2 := natToBytes_length_le_two (n / 10) hd
    simp only [h10, if_false, List.length_append, List.length_cons,
      List.length_nil]
    omega

theorem pad3_length (n : Nat) (h : n < 1000) : (pad3 n).length = 3 := by
  have h3 := natToBytes_length_le_three n h
  have h1 : natToBytes n ≠ [] := natToBytes_ne_nil n
  have h1' : 1 ≤ (natToBytes n).length := by
    cases hnb : natToBytes n with
    | nil => exact absurd hnb h1
    | cons a l => simp
  simp only [pad3, List.length_append, List.length_replicate]
  omega

theorem bodyBytes_eq_nonFramer : (m : EntList) →
    bodyBytes none none m =
      ((nonFramerEntries m).map (fun p => writeField p.1 p.2)).flatten
  | .nil => rfl
  | .cons k v rest => by
      have ih := bodyBytes_eq_nonFramer rest
      simp only [nonFramerEntries] at ih
      by_cases hk : k = 8 ∨ k = 9 ∨ k = 10
      · have hskip : skipTag none none k = true := by
          rcases hk with h | h | h <;> simp [skipTag, h]
        have hpred : ((k != 8 && k != 9 && k != 10) : Bool) = false := by
          rcases hk with h | h | h <;> simp [h]
        simp only [bodyBytes, nonFramerEntries, EntList.toList,
          List.filter_cons]
        simp [hskip, hpred, ih]
      · push_neg at hk
        have hskip : skipTag none none k = false := by
          simp [skipTag, hk.1, hk.2.1, hk.2.2]
        have hpred : ((k != 8 && k != 9 && k != 10) : Bool) = true := by
          simp [hk.1, hk.2.1, hk.2.2]
        simp only [bodyBytes, nonFramerEntries, EntList.toList,
          List.filter_cons]
        simp [hskip, hpred, ih]

/-- Claim C3: `to_binary(M)` emits
`8=<tag-8 value> 9=<len(B)> B 10=<C>` (each field 0x01-terminated), where
`B` encodes exactly M's non-{8,9,10} entries in iteration order and `C` is
the byte sum of the prefix-plus-`B` mod 256, rendered as a three-digit
zero-padded decimal; afterwards the message's tag 9 holds the decimal body
length and tag 10 the three-digit checksum string. -/
theorem claim_C3_to_binary_format (m : EntList) (v8 : Bytes) (B : Bytes)
    (C : Nat) (h8 : m.get? 8 = some (FV.str v8))
    (hB : B = bodyBytes none none m)
    (hC : C = checksum (singleField 8 v8 ++
      singleField 9 (natToBytes B.length) ++ B) 0) :
    toBinary none none m = .ok
      (((m.set 9 (FV.str (natToBytes B.length))).erase 10).set 10
          (FV.str (pad3 C)),
        singleField 8 v8 ++ singleField 9 (natToBytes B.length) ++ B ++
          singleField 10 (pad3 C)) ∧
    B = ((nonFramerEntries m).map (fun p => writeField p.1 p.2)).flatten ∧
    C < 256 ∧ (pad3 C).length = 3 ∧
    (((m.set 9 (FV.str (natToBytes B.length))).erase 10).set 10
        (FV.str (pad3 C))).get? 9 = some (FV.str (natToBytes B.length)) ∧
    (((m.set 9 (FV.str (natToBytes B.length))).erase 10).set 10
        (FV.str (pad3 C))).get? 10 = some (FV.str (pad3 C)) := by
  have h8' : (m.set 9 (FV.str (natToBytes
      (bodyBytes none none m).length))).get? 8 = some (FV.str v8) := by
    rw [EntList.get?_set_ne _ 9 8 _ (by omega)]
    exact h8
  subst hB
  have hCbound : C < 256 := by
    rw [hC]
    apply checksum_lt_256'
    simp [singleField]
  constructor
  · simp only [toBinary, h8']
    subst hC
    rfl
  refine ⟨bodyBytes_eq_nonFramer m, hCbound, pad3_length C (by omega), ?_, ?_⟩
  · rw [EntList.get?_set_ne _ 10 9 _ (by omega),
      EntList.get?_erase_ne _ 10 9 (by omega), EntList.get?_set_self]
  · rw [EntList.get?_set_self]

/-!  ## Theorems: the parser loop on scalar fields -/

theorem findIdx?_prefix (p : Nat → Bool) :
    ∀ (pre : Bytes) (x : Nat) (rest : Bytes) (i : Nat),
      (∀ a ∈ pre, p a = false) → p x = true →
      List.findIdx? p (pre ++ x :: rest) i = some (i + pre.length)
  | [], x, rest, i, _, hx => by
      simp [List.findIdx?_cons, hx]
  | a :: pre, x, rest, i, h, hx => by
      have ha : p a = false := h a (by simp)
      have ih := findIdx?_prefix p pre x rest (i + 1)
        (fun b hb => h b (by simp [hb])) hx
      simp only [List.cons_append, List.findIdx?_cons, ha,
        Bool.false_eq_true, if_false, ih, List.length_cons]
      congr 1
      omega

theorem findFrom_field (b : Nat) (pre rest : Bytes)
    (h : ∀ a ∈ pre, a ≠ b) : findFrom b 0 (pre ++ b :: rest) = some pre.length := by
  unfold findFrom
  rw [List.drop_zero, findIdx?_prefix (· == b) pre b rest 0
    (fun a ha => by simp [h a ha]) (by simp)]
  simp

theorem singleField_decomp (t : Nat) (v rest : Bytes) :
    singleField t v ++ rest = (natToBytes t ++ 61 :: v) ++ 1 :: rest := by
  simp [singleField]

theorem fieldBytes_not_one (t : Nat) (v : Bytes) (hv : ∀ b ∈ v, b ≠ 1) :
    ∀ a ∈ natToBytes t ++ 61 :: v, a ≠ 1 := by
  intro a ha
  rcases List.mem_append.mp ha with h | h
  · exact natToBytes_not_one t a h
  · rcases List.mem_cons.mp h with rfl | h
    · omega
    · exact hv a h

theorem parseField_field (t : Nat) (v : Bytes) :
    parseField (natToBytes t ++ 61 :: v) = .ok (t, v) := by
  unfold parseField
  have hf : findFrom 61 0 (natToBytes t ++ 61 :: v) =
      some (natToBytes t).length :=
    findFrom_field 61 (natToBytes t) v (natToBytes_not_eq61 t)
  have htake : (natToBytes t ++ 61 :: v).take (natToBytes t).length =
      natToBytes t := List.take_left _ _
  have hdrop : (natToBytes t ++ 61 :: v).drop ((natToBytes t).length + 1) =
      v := by
    rw [List.append_cons]
    have hl : (natToBytes t ++ [61]).length = (natToBytes t).length + 1 := by
      simp
    rw [← hl, List.drop_left]
  simp only [hf, htake, pyParseNat_natToBytes, hdrop]

theorem take_field (t : Nat) (v rest : Bytes) :
    (singleField t v ++ rest).take (natToBytes t ++ 61 :: v).length =
      natToBytes t ++ 61 :: v := by
  rw [singleField_decomp, List.take_left]

theorem drop_field (t : Nat) (v rest : Bytes) :
    (singleField t v ++ rest).drop ((natToBytes t ++ 61 :: v).length + 1) =
      rest := by
  rw [singleField_decomp]
  have hl : ((natToBytes t ++ 61 :: v) ++ [1]).length =
      (natToBytes t ++ 61 :: v).length + 1 := by
    simp only [List.length_append, List.length_cons, List.length_nil]
  rw [List.append_cons _ 1 rest, ← hl, List.drop_left]

theorem runLoop_step_normal (cfg : ParserConfig) (hbin : cfg.binaryFields = [])
    (hgrp : cfg.groupFields = []) (t : Nat) (v rest : Bytes)
    (st : ParserState) (evs : List Event) (fuel : Nat)
    (hbt : st.binaryTag = 0) (hbl : st.binaryLength = -1)
    (hstk : st.levelStack = [])
    (hbuf : st.buffer = singleField t v ++ rest)
    (hv : ∀ b ∈ v, b ≠ 1) (ht10 : t ≠ 10)
    (hguard : (t = 8 ∧ st.isParsing = false) ∨ (t ≠ 8 ∧ st.isParsing = true))
    (hlen : (if t = 8 ∨ t = 9 ∨ t = 10 then st.msgLength
        else st.msgLength + (natToBytes t ++ 61 :: v).length + 1) <
      cfg.maxLength) :
    runLoop cfg (fuel + 1) st evs = runLoop cfg fuel
      { isParsing := true
        message := st.message.set t (FV.str v)
        chksum := checksum (natToBytes t ++ 61 :: v) st.chksum + 1
        msgLength := (if t = 8 ∨ t = 9 ∨ t = 10 then st.msgLength
          else st.msgLength + (natToBytes t ++ 61 :: v).length + 1)
        binaryLength := -1
        binaryTag := 0
        levelStack := []
        buffer := rest } evs := by
  obtain ⟨isP, msg, ck, ml, bl, bt, stk, buf⟩ := st
  simp only at hbt hbl hstk hbuf hguard hlen ⊢
  subst hbt hbl hstk hbuf
  have h0 : ((-1 : Int) + 1).toNat = 0 := rfl
  have hfind : findFrom 1 0 (singleField t v ++ rest) =
      some (natToBytes t ++ 61 :: v).length := by
    rw [singleField_decomp]
    exact findFrom_field 1 _ rest (fieldBytes_not_one t v hv)
  have hne : singleField t v ++ rest ≠ [] := by
    simp [singleField]
  conv_lhs => rw [runLoop]
  rw [if_neg (by simp [h0, hfind, hne]), if_neg (by simp)]
  simp only [h0, hfind]
  rw [take_field, drop_field, parseField_field]
  dsimp only
  have hlen' : ¬((if t = 8 ∨ t = 9 ∨ t = 10 then ml
      else ml + (natToBytes t ++ 61 :: v).length + 1) ≥ cfg.maxLength) := by
    omega
  rcases hguard with ⟨rfl, rfl⟩ | ⟨ht8, rfl⟩
  · have hml : ml < cfg.maxLength := by simpa using hlen
    have hge : (ml ≥ cfg.maxLength) = False := eq_false (by omega)
    rw [if_neg (show ¬((8 : Nat) = 8 ∧ false = true) by simp),
      if_neg (show ¬((8 : Nat) ≠ 8 ∧ ¬false = true) by simp),
      if_pos (show (8 : Nat) = 8 from rfl)]
    simp [updateLength, updateChecksum, updateBinary, updateField,
      isGroupField, hbin, hgrp, hge]
  · have h8f : (t = 8) = False := eq_false ht8
    have h10f : (t = 10) = False := eq_false ht10
    rw [if_neg (show ¬(t = 8 ∧ true = true) by simp [ht8]),
      if_neg (show ¬(t ≠ 8 ∧ ¬true = true) by simp),
      if_neg ht8]
    simp only [updateLength]
    set ML := (if t = 8 ∨ t = 9 ∨ t = 10 then ml
      else ml + (natToBytes t ++ 61 :: v).length + 1) with hML
    have hge : (ML ≥ cfg.maxLength) = False := eq_false (by omega)
    simp [updateChecksum, updateBinary, updateField, isGroupField,
      hbin, hgrp, hge, h10f]

theorem runLoop_done (cfg : ParserConfig) (fuel : Nat) (st : ParserState)
    (evs : List Event) (h : st.buffer = []) :
    runLoop cfg fuel st evs = .done st evs := by
  obtain ⟨isP, msg, ck, ml, bl, bt, stk, buf⟩ := st
  simp only at h
  subst h
  rw [runLoop.eq_def]
  dsimp only
  rw [if_pos (by simp)]

/-- One loop iteration on a well-formed field `t=v`, `t ≠ 10`, with the
group-field outcome supplied as a hypothesis (covers group lead tags,
member tags and pops). -/
theorem runLoop_step' (cfg : ParserConfig) (hbin : cfg.binaryFields = [])
    (t : Nat) (v rest : Bytes)
    (st : ParserState) (evs : List Event) (fuel : Nat)
    (msg' : EntList) (stack' : List Level)
    (hbt : st.binaryTag = 0) (hbl : st.binaryLength = -1)
    (hbuf : st.buffer = singleField t v ++ rest)
    (hv : ∀ b ∈ v, b ≠ 1) (ht10 : t ≠ 10)
    (hguard : (t = 8 ∧ st.isParsing = false) ∨ (t ≠ 8 ∧ st.isParsing = true))
    (hlen : (if t = 8 ∨ t = 9 ∨ t = 10 then st.msgLength
        else st.msgLength + (natToBytes t ++ 61 :: v).length + 1) <
      cfg.maxLength)
    (hupd : updateField cfg.groupFields st.levelStack.length t (FV.str v)
        st.message st.levelStack = .ok (msg', stack')) :
    runLoop cfg (fuel + 1) st evs = runLoop cfg fuel
      { isParsing := true
        message := msg'
        chksum := checksum (natToBytes t ++ 61 :: v) st.chksum + 1
        msgLength := (if t = 8 ∨ t = 9 ∨ t = 10 then st.msgLength
          else st.msgLength + (natToBytes t ++ 61 :: v).length + 1)
        binaryLength := -1
        binaryTag := 0
        levelStack := stack'
        buffer := rest } evs := by
  obtain ⟨isP, msg, ck, ml, bl, bt, stk, buf⟩ := st
  simp only at hbt hbl hbuf hguard hlen hupd ⊢
  subst hbt hbl hbuf
  have h0 : ((-1 : Int) + 1).toNat = 0 := rfl
  have hfind : findFrom 1 0 (singleField t v ++ rest) =
      some (natToBytes t ++ 61 :: v).length := by
    rw [singleField_decomp]
    exact findFrom_field 1 _ rest (fieldBytes_not_one t v hv)
  have hne : singleField t v ++ rest ≠ [] := by
    simp [singleField]
  conv_lhs => rw [runLoop.eq_def]
  dsimp only
  rw [if_neg (by simp [h0, hfind, hne]), if_neg (by simp)]
  simp only [h0, hfind]
  rw [take_field, drop_field, parseField_field]
  dsimp only
  rcases hguard with ⟨rfl, rfl⟩ | ⟨ht8, rfl⟩
  · have hml : ml < cfg.maxLength := by simpa using hlen
    have hge : (ml ≥ cfg.maxLength) = False := eq_false (by omega)
    rw [if_neg (show ¬((8 : Nat) = 8 ∧ false = true) by simp),
      if_neg (show ¬((8 : Nat) ≠ 8 ∧ ¬false = true) by simp),
      if_pos (show (8 : Nat) = 8 from rfl)]
    simp [updateLength, updateChecksum, updateBinary, hbin, hge, hupd]
  · have h8f : (t = 8) = False := eq_false ht8
    have h10f : (t = 10) = False := eq_false ht10
    rw [if_neg (show ¬(t = 8 ∧ true = true) by simp [ht8]),
      if_neg (show ¬(t ≠ 8 ∧ ¬true = true) by simp),
      if_neg ht8]
    simp only [updateLength]
    set ML := (if t = 8 ∨ t = 9 ∨ t = 10 then ml
      else ml + (natToBytes t ++ 61 :: v).length + 1) with hML
    have hge : (ML ≥ cfg.maxLength) = False := eq_false (by omega)
    simp [updateChecksum, updateBinary, hbin, hge, h10f, hupd]

/-- The final loop iteration on the `10=v` field: the assembled message,
tallied length and tallied checksum are delivered, and the parser resets
keeping the rest of the buffer. -/
theorem runLoop_step_last (cfg : ParserConfig) (hbin : cfg.binaryFields = [])
    (v rest : Bytes) (st : ParserState) (evs : List Event) (fuel : Nat)
    (msg' : EntList) (stack' : List Level)
    (hbt : st.binaryTag = 0) (hbl : st.binaryLength = -1)
    (hbuf : st.buffer = singleField 10 v ++ rest)
    (hv : ∀ b ∈ v, b ≠ 1)
    (hp : st.isParsing = true)
    (hlen : st.msgLength < cfg.maxLength)
    (hupd : updateField cfg.groupFields st.levelStack.length 10 (FV.str v)
        st.message st.levelStack = .ok (msg', stack')) :
    runLoop cfg (fuel + 1) st evs = runLoop cfg fuel
      { FIXParser.init cfg with buffer := rest }
      (evs ++ [Event.msg msg' st.msgLength st.chksum]) := by
  obtain ⟨isP, msg, ck, ml, bl, bt, stk, buf⟩ := st
  simp only at hbt hbl hbuf hp hlen hupd ⊢
  subst hbt hbl hbuf hp
  have h0 : ((-1 : Int) + 1).toNat = 0 := rfl
  have hfind : findFrom 1 0 (singleField 10 v ++ rest) =
      some (natToBytes 10 ++ 61 :: v).length := by
    rw [singleField_decomp]
    exact findFrom_field 1 _ rest (fieldBytes_not_one 10 v hv)
  have hne : singleField 10 v ++ rest ≠ [] := by
    simp [singleField]
  conv_lhs => rw [runLoop.eq_def]
  dsimp only
  rw [if_neg (by simp [h0, hfind, hne]), if_neg (by simp)]
  simp only [h0, hfind]
  rw [take_field, drop_field, parseField_field]
  dsimp only
  rw [if_neg (show ¬((10 : Nat) = 8 ∧ True) by simp),
    if_neg (show ¬((10 : Nat) ≠ 8 ∧ ¬True) by simp),
    if_neg (show ¬((10 : Nat) = 8) by omega)]
  have hge : (ml ≥ cfg.maxLength) = False := eq_false (by omega)
  simp [updateLength, updateChecksum, updateBinary, hbin, hge, hupd,
    ParserState.reset, FIXParser.init]

/-- One loop iteration on a well-formed field that fails the framing guard
or whose `_update_binary` rejects it: the parser resets (flushing) and
reports the error. -/
theorem runLoop_step_err_binary (cfg : ParserConfig) (t : Nat)
    (v rest : Bytes) (st : ParserState) (evs : List Event) (fuel : Nat)
    (e : FIXError)
    (hbuf : st.buffer = singleField t v ++ rest)
    (hguard : (t = 8 ∧ st.isParsing = false) ∨ (t ≠ 8 ∧ st.isParsing = true))
    (hfind : findFrom 1 (st.binaryLength + 1).toNat st.buffer =
      some (natToBytes t ++ 61 :: v).length)
    (hhold : ¬(st.binaryLength > 0 ∧
      (st.buffer.length : Int) < st.binaryLength))
    (htake : st.buffer.take (natToBytes t ++ 61 :: v).length =
      natToBytes t ++ 61 :: v)
    (hdrop : st.buffer.drop ((natToBytes t ++ 61 :: v).length + 1) = rest)
    (hlen : (if t = 8 ∨ t = 9 ∨ t = 10 then st.msgLength
        else st.msgLength + (natToBytes t ++ 61 :: v).length + 1) <
      cfg.maxLength)
    (hupd : updateBinary cfg
        (updateChecksum
          { st with
            buffer := rest
            isParsing := true
            msgLength := (if t = 8 ∨ t = 9 ∨ t = 10 then st.msgLength
              else st.msgLength + (natToBytes t ++ 61 :: v).length + 1) }
          (natToBytes t ++ 61 :: v) t)
        (natToBytes t ++ 61 :: v) t v = .error (.err e)) :
    runLoop cfg (fuel + 1) st evs =
      .done (ParserState.reset cfg st true) (evs ++ [Event.err e]) := by
  obtain ⟨isP, msg, ck, ml, bl, bt, stk, buf⟩ := st
  simp only at hbuf hguard hfind hhold htake hdrop hlen hupd ⊢
  subst hbuf
  have hne : singleField t v ++ rest ≠ [] := by
    simp [singleField]
  conv_lhs => rw [runLoop.eq_def]
  dsimp only
  rw [if_neg (by simp [hfind, hne]), if_neg hhold]
  simp only [hfind]
  rw [htake, hdrop, parseField_field]
  dsimp only

  rcases hguard with ⟨rfl, rfl⟩ | ⟨ht8, rfl⟩
  · have hml : ml < cfg.maxLength := by simpa using hlen
    have hge : (cfg.maxLength ≤ ml) = False := eq_false (by omega)
    simp only [true_or, if_true, eq_self_iff_true] at hupd
    rw [if_neg (show ¬((8 : Nat) = 8 ∧ false = true) by simp),
      if_neg (show ¬((8 : Nat) ≠ 8 ∧ ¬false = true) by simp),
      if_pos (show (8 : Nat) = 8 from rfl)]
    simp [updateLength, hge, hupd, ParserState.reset, FIXParser.init]
  · have h8f : (t = 8) = False := eq_false ht8
    rw [if_neg (show ¬(t = 8 ∧ true = true) by simp [ht8]),
      if_neg (show ¬(t ≠ 8 ∧ ¬true = true) by simp),
      if_neg ht8]
    simp only [updateLength]
    set ML := (if t = 8 ∨ t = 9 ∨ t = 10 then ml
      else ml + (natToBytes t ++ 61 :: v).length + 1) with hML
    have hge : (cfg.maxLength ≤ ML) = False := eq_false (by omega)
    simp [hge, hupd, ParserState.reset, FIXParser.init]

theorem tallyLength_mono : ∀ (l : List (Nat × Bytes)) (n : Nat),
    n ≤ tallyLength l n
  | [], n => le_refl n
  | p :: rest, n => by
      simp only [tallyLength, List.foldl_cons]
      by_cases hc : p.1 = 8 ∨ p.1 = 9 ∨ p.1 = 10
      · simp only [if_pos hc]
        simpa [tallyLength] using tallyLength_mono rest n
      · simp only [if_neg hc]
        have h := tallyLength_mono rest
          (n + (natToBytes p.1 ++ 61 :: p.2).length + 1)
        simp only [tallyLength] at h
        omega

theorem encodeFields_cons (p : Nat × Bytes) (l : List (Nat × Bytes)) :
    encodeFields (p :: l) = singleField p.1 p.2 ++ encodeFields l := by
  simp [encodeFields]

theorem runLoop_fields (cfg : ParserConfig) (hbin : cfg.binaryFields = [])
    (hgrp : cfg.groupFields = []) :
    ∀ (l : List (Nat × Bytes)) (st : ParserState) (evs : List Event)
      (fuel : Nat) (tailB : Bytes),
      st.binaryTag = 0 → st.binaryLength = -1 → st.levelStack = [] →
      st.isParsing = true →
      (∀ p ∈ l, p.1 ≠ 8 ∧ p.1 ≠ 10 ∧ ∀ b ∈ p.2, b ≠ 1) →
      st.buffer = encodeFields l ++ tailB →
      tallyLength l st.msgLength < cfg.maxLength →
      runLoop cfg (l.length + fuel) st evs = runLoop cfg fuel
        { isParsing := true
          message := setAllStr st.message l
          chksum := tallyChecksum l st.chksum
          msgLength := tallyLength l st.msgLength
          binaryLength := -1
          binaryTag := 0
          levelStack := []
          buffer := tailB } evs
  | [], st, evs, fuel, tailB => by
      intro hbt hbl hstk hp _ hbuf hlen
      obtain ⟨isP, msg, ck, ml, bl, bt, stk, buf⟩ := st
      simp only at hbt hbl hstk hp hbuf ⊢
      subst hbt hbl hstk hp
      simp only [encodeFields, List.map_nil, List.flatten_nil,
        List.nil_append] at hbuf
      subst hbuf
      simp only [List.length_nil, Nat.zero_add]
      rfl
  | p :: rest, st, evs, fuel, tailB => by
      intro hbt hbl hstk hp hl hbuf hlen
      have hp8 : p.1 ≠ 8 := (hl p (by simp)).1
      have hp10 : p.1 ≠ 10 := (hl p (by simp)).2.1
      have hpv : ∀ b ∈ p.2, b ≠ 1 := (hl p (by simp)).2.2
      have hbuf' : st.buffer = singleField p.1 p.2 ++
          (encodeFields rest ++ tailB) := by
        rw [hbuf, encodeFields_cons, List.append_assoc]
      have hmono := tallyLength_mono rest
        (if p.1 = 8 ∨ p.1 = 9 ∨ p.1 = 10 then st.msgLength
         else st.msgLength + (natToBytes p.1 ++ 61 :: p.2).length + 1)
      have htl : tallyLength (p :: rest) st.msgLength =
          tallyLength rest
            (if p.1 = 8 ∨ p.1 = 9 ∨ p.1 = 10 then st.msgLength
             else st.msgLength + (natToBytes p.1 ++ 61 :: p.2).length + 1) := by
        simp [tallyLength]
      have hstep := runLoop_step_normal cfg hbin hgrp p.1 p.2
        (encodeFields rest ++ tailB) st evs (rest.length + fuel)
        hbt hbl hstk hbuf' hpv hp10 (Or.inr ⟨hp8, hp⟩)
        (by rw [htl] at hlen; omega)
      have hlist : (p :: rest).length + fuel = (rest.length + fuel) + 1 := by
        simp
        omega
      rw [hlist, hstep]
      have hih := runLoop_fields cfg hbin hgrp rest
        { isParsing := true
          message := st.message.set p.1 (FV.str p.2)
          chksum := checksum (natToBytes p.1 ++ 61 :: p.2) st.chksum + 1
          msgLength := (if p.1 = 8 ∨ p.1 = 9 ∨ p.1 = 10 then st.msgLength
            else st.msgLength + (natToBytes p.1 ++ 61 :: p.2).length + 1)
          binaryLength := -1
          binaryTag := 0
          levelStack := []
          buffer := encodeFields rest ++ tailB } evs fuel tailB
        rfl rfl rfl rfl (fun q hq => hl q (by simp [hq])) rfl
        (by rw [htl] at hlen; exact hlen)
      rw [hih]
      simp only [tallyChecksum, tallyLength, setAllStr, List.foldl_cons, htl]

/-- A complete scalar-field message on the wire, fed to a freshly reset
parser with no binary and no group fields configured: the parser walks the
`8=` field, the middle fields `l`, and the `10=` field, delivers exactly
one message assembled by ordered assignment into the header-seeded
message, with the length and checksum tallies, and resets. -/
theorem runLoop_message (cfg : ParserConfig) (hbin : cfg.binaryFields = [])
    (hgrp : cfg.groupFields = []) (v8 : Bytes) (l : List (Nat × Bytes))
    (chkv tailB : Bytes) (fuel : Nat)
    (hv8 : ∀ b ∈ v8, b ≠ 1)
    (hl : ∀ p ∈ l, p.1 ≠ 8 ∧ p.1 ≠ 10 ∧ ∀ b ∈ p.2, b ≠ 1)
    (hchk : ∀ b ∈ chkv, b ≠ 1)
    (hlen : tallyLength l 0 < cfg.maxLength) :
    runLoop cfg (l.length + fuel + 2)
      { isParsing := false
        message := fixMessageNew cfg.headerFields
        chksum := 0
        msgLength := 0
        binaryLength := -1
        binaryTag := 0
        levelStack := []
        buffer := singleField 8 v8 ++
          (encodeFields l ++ (singleField 10 chkv ++ tailB)) } [] =
    runLoop cfg fuel
      { isParsing := false
        message := fixMessageNew cfg.headerFields
        chksum := 0
        msgLength := 0
        binaryLength := -1
        binaryTag := 0
        levelStack := []
        buffer := tailB }
      [Event.msg
        ((setAllStr ((fixMessageNew cfg.headerFields).set 8 (FV.str v8))
            l).set 10 (FV.str chkv))
        (tallyLength l 0)
        (tallyChecksum l (checksum (natToBytes 8 ++ 61 :: v8) 0 + 1))] := by
  have h0max : 0 < cfg.maxLength := by
    have := tallyLength_mono l 0
    omega
  have hstep8 := runLoop_step_normal cfg hbin hgrp 8 v8
    (encodeFields l ++ (singleField 10 chkv ++ tailB))
    { isParsing := false
      message := fixMessageNew cfg.headerFields
      chksum := 0
      msgLength := 0
      binaryLength := -1
      binaryTag := 0
      levelStack := []
      buffer := singleField 8 v8 ++
        (encodeFields l ++ (singleField 10 chkv ++ tailB)) }
    [] (l.length + fuel + 1) rfl rfl rfl rfl hv8 (by omega)
    (Or.inl ⟨rfl, rfl⟩) (by simpa using h0max)
  have harith : l.length + fuel + 2 = (l.length + fuel + 1) + 1 := by omega
  rw [harith, hstep8]
  dsimp only
  simp only [show ((8 : Nat) = 8 ∨ (8 : Nat) = 9 ∨ (8 : Nat) = 10) = True by
    simp, if_true]
  have hfields := runLoop_fields cfg hbin hgrp l
    { isParsing := true
      message := (fixMessageNew cfg.headerFields).set 8 (FV.str v8)
      chksum := checksum (natToBytes 8 ++ 61 :: v8) 0 + 1
      msgLength := 0
      binaryLength := -1
      binaryTag := 0
      levelStack := []
      buffer := encodeFields l ++ (singleField 10 chkv ++ tailB) }
    [] (fuel + 1) (singleField 10 chkv ++ tailB)
    rfl rfl rfl rfl hl rfl hlen
  have harith2 : l.length + fuel + 1 = l.length + (fuel + 1) := by omega
  rw [harith2]
  apply Eq.trans hfields
  dsimp only
  have hupd10 : updateField cfg.groupFields
      ([] : List Level).length 10 (FV.str chkv)
      (setAllStr ((fixMessageNew cfg.headerFields).set 8 (FV.str v8)) l)
      [] = .ok
        ((setAllStr ((fixMessageNew cfg.headerFields).set 8 (FV.str v8))
          l).set 10 (FV.str chkv), []) := by
    rw [updateField]
    simp [isGroupField, hgrp]
  have hlast := runLoop_step_last cfg hbin chkv tailB
    { isParsing := true
      message := setAllStr ((fixMessageNew cfg.headerFields).set 8
        (FV.str v8)) l
      chksum := tallyChecksum l (checksum (natToBytes 8 ++ 61 :: v8) 0 + 1)
      msgLength := tallyLength l 0
      binaryLength := -1
      binaryTag := 0
      levelStack := []
      buffer := singleField 10 chkv ++ tailB }
    [] fuel _ _ rfl rfl rfl hchk rfl hlen hupd10
  apply Eq.trans hlast
  rfl

theorem natToBytes_length_pos (n : Nat) : 0 < (natToBytes n).length := by
  rw [natToBytes, natToBytesCore]
  split <;> simp

theorem singleField_length_ge (t : Nat) (v : Bytes) :
    3 ≤ (singleField t v).length := by
  have := natToBytes_length_pos t
  simp [singleField]
  omega

theorem encodeFields_length_ge : ∀ l : List (Nat × Bytes),
    l.length ≤ (encodeFields l).length
  | [] => Nat.le_refl 0
  | p :: l => by
      rw [encodeFields_cons]
      have h1 := singleField_length_ge p.1 p.2
      have h2 := encodeFields_length_ge l
      simp only [List.length_append, List.length_cons]
      omega

/-- Feeding a fresh parser one complete, purely scalar message
`8=v8 | fields | 10=chk` (SOH-free values) delivers exactly one message
event — the fields assigned in order, with the tallied body length and
checksum — and leaves the parser back in its freshly reset state. -/
theorem onDataReceived_message (cfg : ParserConfig)
    (hbin : cfg.binaryFields = []) (hgrp : cfg.groupFields = [])
    (v8 : Bytes) (l : List (Nat × Bytes)) (chkv : Bytes)
    (hv8 : ∀ b ∈ v8, b ≠ 1)
    (hl : ∀ p ∈ l, p.1 ≠ 8 ∧ p.1 ≠ 10 ∧ ∀ b ∈ p.2, b ≠ 1)
    (hchk : ∀ b ∈ chkv, b ≠ 1)
    (hlen : tallyLength l 0 < cfg.maxLength) :
    onDataReceived cfg (FIXParser.init cfg)
      (singleField 8 v8 ++ (encodeFields l ++ singleField 10 chkv)) =
    .done (FIXParser.init cfg)
      [Event.msg
        ((setAllStr ((fixMessageNew cfg.headerFields).set 8 (FV.str v8))
            l).set 10 (FV.str chkv))
        (tallyLength l 0)
        (tallyChecksum l (checksum (natToBytes 8 ++ 61 :: v8) 0 + 1))] := by
  have h8 := singleField_length_ge 8 v8
  have hf := encodeFields_length_ge l
  have h10 := singleField_length_ge 10 chkv
  rw [onDataReceived]
  dsimp only [FIXParser.init, List.nil_append]
  have harith : (singleField 8 v8 ++
        (encodeFields l ++ singleField 10 chkv)).length + 1 =
      l.length + ((singleField 8 v8 ++
        (encodeFields l ++ singleField 10 chkv)).length - 1 - l.length) + 2 := by
    simp only [List.length_append]
    omega
  rw [harith,
    show encodeFields l ++ singleField 10 chkv =
      encodeFields l ++ (singleField 10 chkv ++ []) from by
        rw [List.append_nil]]
  apply Eq.trans (runLoop_message cfg hbin hgrp v8 l chkv [] _
    hv8 hl hchk hlen)
  exact runLoop_done cfg _ _ _ rfl

/-!  ## Theorems: the decoder's checksum tally (claim C2)

The decoder adds `checksum(field) + 1` per field with the `+ 1` applied
outside the mod-256 reduction, so its running tally lies in `1..256` and
delivers 256 — never 0 — when the wire bytes sum to a multiple of 256.  The
encoder writes `sum mod 256` (here `000`).  The session then rejects the
encoder's own output with `FIXDataError(10)`. -/

/-- Claim C2 is falsified on `c2wire` (= `to_binary` of `c2msg`): the wire
bytes from `8=` through the last 0x01 before `10=` sum to 0 mod 256, but
the parser's tally hands 256 to `on_message_received`, and the session
engine consequently raises `FIXDataError` on tag 10 for a correctly framed
message. -/
theorem claim_C2_checksum_tally_divergence :
    (toBinary none none c2msg).toOption.map Prod.snd = some c2wire ∧
    checksum c2prefix 0 = 0 ∧
    (firstDelivered (onDataReceived c2cfg (FIXParser.init c2cfg) c2wire)).map
      (fun p => p.2.2) = some 256 ∧
    (256 : Nat) ≠ checksum c2prefix 0 ∧
    (firstDelivered (onDataReceived c2cfg (FIXParser.init c2cfg) c2wire)).map
      (fun p => protoOnMessageReceived c2proto c2pst dt0 p.1 p.2.1 p.2.2) =
      some (Except.error (ProtoException.dataError 10)) := by
  have hwire : c2wire = singleField 8 (bstr "FIX.4.2") ++
      (encodeFields [(9, bstr "10"), (35, bstr "A"), (58, bstr "w")] ++
        singleField 10 (bstr "000")) := by decide
  have hrun := onDataReceived_message c2cfg rfl rfl (bstr "FIX.4.2")
    [(9, bstr "10"), (35, bstr "A"), (58, bstr "w")] (bstr "000")
    (by decide) (by decide) (by decide) (by decide)
  rw [hwire]
  refine ⟨by decide, by decide, ?_, by decide, ?_⟩
  · rw [hrun]
    decide
  · rw [hrun]
    rfl

/-!  ## Witnesses for the session, queue and encoder claims -/

/-- Concrete inputs exercising `claim_C5_prepare_send_message`: two
successive sends from seqno 0 stamp tags 34 with 1 and 2. -/
theorem claim_C5_prepare_send_message_witness :
    (prepareSeq c2proto c2pst [(dt0, c2msg), (dt0, c2msg)]).map
        (fun r => r.message.get? 34) =
      (List.range 2).map
        (fun i => some (FV.str (natToBytes (c2pst.sendSeqno + i + 1)))) :=
  (claim_C5_prepare_send_message c2proto c2pst [(dt0, c2msg), (dt0, c2msg)]
    dt0 c2msg 35).1

/-- Concrete inputs exercising `claim_C10_failed_send_consumes_seqno`:
sending the empty message fails on required tag 35 yet increments the
sequence number. -/
theorem claim_C10_failed_send_consumes_seqno_witness :
    (prepareSendMessage c2proto c2pst dt0 EntList.nil).state.sendSeqno =
      c2pst.sendSeqno + 1 :=
  (claim_C10_failed_send_consumes_seqno c2proto c2pst dt0 EntList.nil 35
    (by decide)).1

/-- Concrete inputs exercising `claim_C4_length_checksum_validation`: a
message whose tag 9 reads 5 delivered with tallied body length 7 is
rejected with `FIXDataError` on tag 9. -/
theorem claim_C4_length_checksum_validation_witness :
    protoOnMessageReceived c2proto c2pst dt0 c4msg 7 3 =
      .error (.dataError 9) :=
  (claim_C4_length_checksum_validation c2proto c2pst dt0 c4msg 7 3
    (FV.str (bstr "5")) (FV.str (bstr "000")) 5 0
    (by decide) (by decide) (by decide) (by decide) (by decide)
    (by decide)).1 (by decide)

/-- Concrete inputs exercising `claim_C9_heartbeat_filter`: a validated
TestRequest under `filter_heartbeat` still produces an outbound Heartbeat
echoing tag 112. -/
theorem claim_C9_heartbeat_filter_witness :
    ∃ st2 acts2,
      protoOnMessageReceived { c2proto with filterHeartbeat := true } c2pst
        dt0 c9msg 13 186 = .ok (st2, acts2) ∧
      ∃ reply, Action.send reply ∈ acts2 ∧
        reply.get? 35 = some (FV.str (bstr "0")) ∧
        reply.get? 112 = some (FV.str (bstr "tr1")) :=
  ⟨_, _, rfl,
    (claim_C9_heartbeat_filter { c2proto with filterHeartbeat := true }
      c2pst dt0 rfl).2 c9msg 13 186 _ _ (FV.str (bstr "tr1")) rfl rfl rfl⟩

/-- Concrete inputs exercising `claim_C8_wait_for_message`: a message
already queued at the first poll is returned. -/
theorem claim_C8_wait_for_message_witness :
    waitForMessage "t" 5 (fun _ => ⟨0, false, some c2msg⟩) 1 0 =
      .msg c2msg :=
  (claim_C8_wait_for_message "t" 5 (fun _ => ⟨0, false, some c2msg⟩) 0 1
    { items := [], isCancelled := false } (by decide)
    (by intro j hj; exact absurd hj (by omega))).2.2.1 c2msg (by decide)
    rfl rfl

/-- Concrete inputs exercising `claim_C3_to_binary_format` on `c3msg`
(body `35=A`, length 5, checksum 178). -/
theorem claim_C3_to_binary_format_witness :
    toBinary none none c3msg = .ok
      (((c3msg.set 9 (FV.str (natToBytes (toFix ["35=A"]).length))).erase
          10).set 10 (FV.str (pad3 178)),
        singleField 8 (bstr "FIX.4.2") ++
          singleField 9 (natToBytes (toFix ["35=A"]).length) ++
          toFix ["35=A"] ++ singleField 10 (pad3 178)) ∧
    toFix ["35=A"] = ((nonFramerEntries c3msg).map
      (fun p => writeField p.1 p.2)).flatten ∧
    (178 : Nat) < 256 ∧ (pad3 178).length = 3 ∧
    (((c3msg.set 9 (FV.str (natToBytes (toFix ["35=A"]).length))).erase
        10).set 10 (FV.str (pad3 178))).get? 9 =
      some (FV.str (natToBytes (toFix ["35=A"]).length)) ∧
    (((c3msg.set 9 (FV.str (natToBytes (toFix ["35=A"]).length))).erase
        10).set 10 (FV.str (pad3 178))).get? 10 =
      some (FV.str (pad3 178)) :=
  claim_C3_to_binary_format c3msg (bstr "FIX.4.2") (toFix ["35=A"]) 178
    (by decide) (by decide) (by decide)

/-!  ## Theorems: the encode/decode round-trip (claim C1) -/

theorem pad3_not_one (n : Nat) : ∀ b ∈ pad3 n, b ≠ 1 := by
  intro b hb
  rw [pad3] at hb
  rcases List.mem_append.mp hb with h | h
  · have := List.eq_of_mem_replicate h
    omega
  · exact natToBytes_not_one n b h

theorem EntList.keys_set_of_not_mem (m : EntList) (t : Nat) (v : FV)
    (h : t ∉ m.keys) : (m.set t v).keys = m.keys ++ [t] := by
  rw [EntList.keys, EntList.set_toList_of_not_mem m t v h]
  simp [EntList.keys]

/-- `message.update` over fresh, pairwise-distinct tags appends the entries
in order. -/
theorem setAllStr_toList_fresh : ∀ (l : List (Nat × Bytes)) (m : EntList),
    (∀ p ∈ l, p.1 ∉ m.keys) → (l.map Prod.fst).Nodup →
    (setAllStr m l).toList = m.toList ++ l.map (fun p => (p.1, FV.str p.2))
  | [], m, _, _ => by simp [setAllStr]
  | p :: l, m, hfresh, hnd => by
      have hp : p.1 ∉ m.keys := hfresh p (List.mem_cons_self p l)
      have hkeys : (m.set p.1 (FV.str p.2)).keys = m.keys ++ [p.1] :=
        EntList.keys_set_of_not_mem m p.1 _ hp
      simp only [List.map_cons, List.nodup_cons] at hnd
      have hfresh' : ∀ q ∈ l, q.1 ∉ (m.set p.1 (FV.str p.2)).keys := by
        intro q hq
        rw [hkeys]
        simp only [List.mem_append, List.mem_singleton]
        push_neg
        refine ⟨hfresh q (List.mem_cons_of_mem p hq), fun hh => hnd.1 ?_⟩
        rw [← hh]
        exact List.mem_map_of_mem Prod.fst hq
      have ih := setAllStr_toList_fresh l (m.set p.1 (FV.str p.2)) hfresh'
        hnd.2
      simp only [setAllStr, List.foldl_cons] at ih ⊢
      rw [ih, EntList.set_toList_of_not_mem m p.1 _ hp]
      simp

/-- Entries on tags outside {8, 9, 10} pass the non-framer filter. -/
theorem filter_nonFramer_map (l : List (Nat × Bytes))
    (h : ∀ p ∈ l, p.1 ≠ 8 ∧ p.1 ≠ 9 ∧ p.1 ≠ 10) :
    (l.map (fun p => (p.1, FV.str p.2))).filter
      (fun p => p.1 != 8 && p.1 != 9 && p.1 != 10) =
      l.map (fun p => (p.1, FV.str p.2)) := by
  rw [List.filter_eq_self]
  intro a ha
  obtain ⟨p, hp, rfl⟩ := List.mem_map.mp ha
  obtain ⟨h1, h2, h3⟩ := h p hp
  simp [h1, h2, h3]

/-- Claim C1, amended: the round-trip holds for purely scalar messages fed
to a parser that pre-seeds only the framer tags — for a message `M` whose
entries are tag 8 followed by SOH-free scalar fields on pairwise-distinct
tags outside {8, 9, 10} and within the length bound, `to_binary(M)` fed to
a fresh `FIXParser(header_fields=[8, 9])` delivers exactly one message
whose non-{8, 9, 10} entries equal `M`'s, in the same order.  The original
claim fails for repeating groups, whose boundaries the parser re-derives
from repeated member tags (`claim_C1_counterexample`), and for parsers
pre-seeding further header tags into every decoded message. -/
theorem claim_C1_scalar_roundtrip (m : EntList) (v8 : Bytes)
    (l : List (Nat × Bytes))
    (hm : m.toList = (8, FV.str v8) :: l.map (fun p => (p.1, FV.str p.2)))
    (hv8 : ∀ b ∈ v8, b ≠ 1)
    (htags : ∀ p ∈ l, p.1 ≠ 8 ∧ p.1 ≠ 9 ∧ p.1 ≠ 10)
    (hvals : ∀ p ∈ l, ∀ b ∈ p.2, b ≠ 1)
    (hnodup : (l.map Prod.fst).Nodup)
    (hlen : tallyLength ((9, natToBytes (encodeFields l).length) :: l) 0 <
      c1cfg.maxLength) :
    ∃ wire md bl ck,
      (toBinary none none m).toOption.map Prod.snd = some wire ∧
      onDataReceived c1cfg (FIXParser.init c1cfg) wire =
        .done (FIXParser.init c1cfg) [Event.msg md bl ck] ∧
      nonFramerEntries md = nonFramerEntries m ∧
      nonFramerEntries m = l.map (fun p => (p.1, FV.str p.2)) := by
  have hnf : nonFramerEntries m = l.map (fun p => (p.1, FV.str p.2)) := by
    rw [nonFramerEntries, hm]
    rw [show List.filter (fun p => p.1 != 8 && p.1 != 9 && p.1 != 10)
        ((8, FV.str v8) :: l.map (fun p => (p.1, FV.str p.2))) =
      List.filter (fun p => p.1 != 8 && p.1 != 9 && p.1 != 10)
        (l.map (fun p => (p.1, FV.str p.2))) from rfl]
    exact filter_nonFramer_map l htags
  have hB : bodyBytes none none m = encodeFields l := by
    rw [bodyBytes_eq_nonFramer, hnf, encodeFields, List.map_map]
    rfl
  have h8 : m.get? 8 = some (FV.str v8) := by
    rw [EntList.get?_eq_lookup, hm]
    simp [List.lookup]
  have h8' : (m.set 9 (FV.str (natToBytes
      (bodyBytes none none m).length))).get? 8 = some (FV.str v8) := by
    rw [EntList.get?_set_ne _ 9 8 _ (by omega)]
    exact h8
  have henc : (toBinary none none m).toOption.map Prod.snd =
      some (singleField 8 v8 ++
        (encodeFields ((9, natToBytes (encodeFields l).length) :: l) ++
          singleField 10 (pad3 (checksum
            (singleField 8 v8 ++
              singleField 9 (natToBytes (encodeFields l).length) ++
              encodeFields l) 0)))) := by
    simp only [toBinary, h8']
    rw [hB]
    simp [encodeFields_cons, Except.toOption, fvScalarBytes, List.append_assoc]
  have hl' : ∀ p ∈ (9, natToBytes (encodeFields l).length) :: l,
      p.1 ≠ 8 ∧ p.1 ≠ 10 ∧ ∀ b ∈ p.2, b ≠ 1 := by
    intro p hp
    rcases List.mem_cons.mp hp with rfl | hp'
    · exact ⟨by omega, by omega, natToBytes_not_one _⟩
    · obtain ⟨h1, _, h3⟩ := htags p hp'
      exact ⟨h1, h3, hvals p hp'⟩
  have hrun := onDataReceived_message c1cfg rfl rfl v8
    ((9, natToBytes (encodeFields l).length) :: l)
    (pad3 (checksum (singleField 8 v8 ++
      singleField 9 (natToBytes (encodeFields l).length) ++
      encodeFields l) 0))
    hv8 hl' (pad3_not_one _) hlen
  have hfresh : ∀ p ∈ l, p.1 ∉ (EntList.cons 8 (FV.str v8) (EntList.cons 9
      (FV.str (natToBytes (encodeFields l).length)) EntList.nil)).keys := by
    intro p hp
    obtain ⟨h1, h2, _⟩ := htags p hp
    simp [EntList.keys, EntList.toList, h1, h2]
  have hstep : (setAllStr ((fixMessageNew c1cfg.headerFields).set 8
      (FV.str v8))
      ((9, natToBytes (encodeFields l).length) :: l)).toList =
      (8, FV.str v8) :: (9, FV.str (natToBytes (encodeFields l).length)) ::
        l.map (fun p => (p.1, FV.str p.2)) := by
    have h1 : setAllStr ((fixMessageNew c1cfg.headerFields).set 8
        (FV.str v8)) ((9, natToBytes (encodeFields l).length) :: l) =
      setAllStr (EntList.cons 8 (FV.str v8) (EntList.cons 9
        (FV.str (natToBytes (encodeFields l).length)) EntList.nil)) l := rfl
    rw [h1, setAllStr_toList_fresh l _ hfresh hnodup]
    rfl
  have h10notin : (10 : Nat) ∉ (setAllStr ((fixMessageNew
      c1cfg.headerFields).set 8 (FV.str v8))
      ((9, natToBytes (encodeFields l).length) :: l)).keys := by
    rw [EntList.keys, hstep]
    simp only [List.map_cons, List.mem_cons, List.map_map]
    push_neg
    refine ⟨by omega, by omega, ?_⟩
    intro hmem
    obtain ⟨p, hp, hfst⟩ := List.mem_map.mp hmem
    exact (htags p hp).2.2 (by simpa using hfst)
  have hmdlist : ((setAllStr ((fixMessageNew c1cfg.headerFields).set 8
      (FV.str v8)) ((9, natToBytes (encodeFields l).length) :: l)).set 10
      (FV.str (pad3 (checksum (singleField 8 v8 ++
        singleField 9 (natToBytes (encodeFields l).length) ++
        encodeFields l) 0)))).toList =
      (8, FV.str v8) :: (9, FV.str (natToBytes (encodeFields l).length)) ::
        (l.map (fun p => (p.1, FV.str p.2)) ++
          [(10, FV.str (pad3 (checksum (singleField 8 v8 ++
            singleField 9 (natToBytes (encodeFields l).length) ++
            encodeFields l) 0)))]) := by
    rw [EntList.set_toList_of_not_mem _ 10 _ h10notin, hstep]
    simp
  have hnfmd : nonFramerEntries ((setAllStr ((fixMessageNew
      c1cfg.headerFields).set 8 (FV.str v8))
      ((9, natToBytes (encodeFields l).length) :: l)).set 10
      (FV.str (pad3 (checksum (singleField 8 v8 ++
        singleField 9 (natToBytes (encodeFields l).length) ++
        encodeFields l) 0)))) =
      l.map (fun p => (p.1, FV.str p.2)) := by
    rw [nonFramerEntries, hmdlist]
    rw [show List.filter (fun p => p.1 != 8 && p.1 != 9 && p.1 != 10)
        ((8, FV.str v8) :: (9, FV.str (natToBytes
          (encodeFields l).length)) ::
          (l.map (fun p => (p.1, FV.str p.2)) ++
            [(10, FV.str (pad3 (checksum (singleField 8 v8 ++
              singleField 9 (natToBytes (encodeFields l).length) ++
              encodeFields l) 0)))])) =
      List.filter (fun p => p.1 != 8 && p.1 != 9 && p.1 != 10)
        (l.map (fun p => (p.1, FV.str p.2)) ++
          [(10, FV.str (pad3 (checksum (singleField 8 v8 ++
            singleField 9 (natToBytes (encodeFields l).length) ++
            encodeFields l) 0)))]) from rfl]
    rw [List.filter_append, filter_nonFramer_map l htags]
    simp
  exact ⟨_, _, _, _, henc, hrun, by rw [hnfmd, hnf], hnf⟩

/-- Concrete inputs exercising `claim_C1_scalar_roundtrip`: the message
`{8: FIX.4.2, 35: A, 58: hi}`. -/
theorem claim_C1_scalar_roundtrip_witness :
    ∃ wire md bl ck,
      (toBinary none none (EntList.cons 8 (FV.str (bstr "FIX.4.2"))
        (EntList.cons 35 (FV.str (bstr "A"))
          (EntList.cons 58 (FV.str (bstr "hi"))
            EntList.nil)))).toOption.map Prod.snd = some wire ∧
      onDataReceived c1cfg (FIXParser.init c1cfg) wire =
        .done (FIXParser.init c1cfg) [Event.msg md bl ck] ∧
      nonFramerEntries md = nonFramerEntries (EntList.cons 8
        (FV.str (bstr "FIX.4.2")) (EntList.cons 35 (FV.str (bstr "A"))
          (EntList.cons 58 (FV.str (bstr "hi")) EntList.nil))) ∧
      nonFramerEntries (EntList.cons 8 (FV.str (bstr "FIX.4.2"))
        (EntList.cons 35 (FV.str (bstr "A"))
          (EntList.cons 58 (FV.str (bstr "hi")) EntList.nil))) =
        [(35, bstr "A"), (58, bstr "hi")].map
          (fun p => (p.1, FV.str p.2)) :=
  claim_C1_scalar_roundtrip
    (EntList.cons 8 (FV.str (bstr "FIX.4.2"))
      (EntList.cons 35 (FV.str (bstr "A"))
        (EntList.cons 58 (FV.str (bstr "hi")) EntList.nil)))
    (bstr "FIX.4.2") [(35, bstr "A"), (58, bstr "hi")]
    (by decide) (by decide) (by decide) (by decide) (by decide) (by decide)

/-!  ## Theorems: repeating-group assembly (claim C6) -/

/-- Claim C6, amended: while a level for lead tag G is active, a member tag
T that is **not itself a group lead tag** is handled in the level — a new
sub-group is allocated exactly when there is no current sub-group or the
current one already contains T, and T's value is stored in the current
sub-group; a non-member tag pops the level, attaching its assembled list
under G in the parent's current group, repeating until a level admitting T
remains or the stack empties (then attaching to the top-level message).
The original claim's dichotomy omits the source's first check: a member
tag that is itself a group lead pushes a fresh level instead
(`claim_C6_counterexample`). -/
theorem claim_C6_group_parsing (gf : List (Nat × List Nat)) (fuel tagId : Nat)
    (value : FV) (msg : EntList) (lvl p : Level) (rest : List Level)
    (hlead : isGroupField gf tagId = false) :
    (tagId ∈ membersOf gf lvl.tag →
      updateField gf fuel tagId value msg (lvl :: rest) =
        .ok (msg, levelStoreMember lvl tagId value :: rest)) ∧
    (lvl.hasCur = false →
      levelStoreMember lvl tagId value =
        { lvl with glist := lvl.glist.push (EntList.nil.set tagId value), hasCur := true }) ∧
    (∀ g, lvl.hasCur = true → lvl.glist.getLast? = some g →
      g.mem tagId = true →
      levelStoreMember lvl tagId value =
        { lvl with glist := lvl.glist.push (EntList.nil.set tagId value) }) ∧
    (∀ g, lvl.hasCur = true → lvl.glist.getLast? = some g →
      g.mem tagId = false →
      levelStoreMember lvl tagId value =
        { lvl with glist := lvl.glist.updateLast (fun gg => gg.set tagId value) }) ∧
    (tagId ∉ membersOf gf lvl.tag →
      updateField gf (fuel + 1) tagId value msg (lvl :: rest) =
        match popLoop gf tagId lvl rest msg with
        | .error e => .error e
        | .ok (msg', stack') => updateField gf fuel tagId value msg' stack') ∧
    (popLoop gf tagId lvl [] msg =
      .ok (msg.set lvl.tag (FV.groups lvl.glist), [])) ∧
    (p.hasCur = true → tagId ∈ membersOf gf p.tag →
      popLoop gf tagId lvl (p :: rest) msg = .ok (msg,
        { p with glist := p.glist.updateLast (fun g => g.set lvl.tag (FV.groups lvl.glist)) } :: rest)) ∧
    (p.hasCur = true → tagId ∉ membersOf gf p.tag →
      popLoop gf tagId lvl (p :: rest) msg =
        popLoop gf tagId
          { p with glist := p.glist.updateLast (fun g => g.set lvl.tag (FV.groups lvl.glist)) } rest msg) := by
  refine ⟨?_, ?_, ?_, ?_, ?_, ?_, ?_, ?_⟩
  · intro hmem
    rw [updateField]
    simp [hlead, hmem]
  · intro hc
    simp [levelStoreMember, hc]
  · intro g hc hg hm
    simp [levelStoreMember, hc, hg, hm]
  · intro g hc hg hm
    simp [levelStoreMember, hc, hg, hm]
  · intro hnm
    rw [updateField]
    simp only [hlead, Bool.false_eq_true, if_false]
    rw [if_neg hnm]
  · rw [popLoop]
  · intro hc hm
    rw [popLoop]
    simp [popAttach, hc, hm]
  · intro hc hm
    rw [popLoop]
    simp [popAttach, hc, hm]

/-- Concrete inputs exercising `claim_C6_group_parsing`: member tag 101 of
an active level for group 100 (101 is not a group lead), handled by
`levelStoreMember`. -/
theorem claim_C6_group_parsing_witness :
    updateField [(100, [101])] 0 101 c6val EntList.nil
      [{ tag := 100, glist := GrpList.nil, hasCur := false }] =
      .ok (EntList.nil, [levelStoreMember
        { tag := 100, glist := GrpList.nil, hasCur := false } 101 c6val]) :=
  (claim_C6_group_parsing [(100, [101])] 0 101 c6val EntList.nil
    { tag := 100, glist := GrpList.nil, hasCur := false }
    { tag := 100, glist := GrpList.nil, hasCur := false } []
    (by decide)).1 (by decide)

/-- The original claim C1 fails for repeating groups: `c1gMsg` holds two
sub-groups `[{101: a}, {102: b}]` under tag 100, its `to_binary` output is
`c1gWire`, yet the parser reassembles a single sub-group holding both
member tags, so the decoded non-framer entries differ from the source
message's. -/
theorem claim_C1_counterexample :
    (toBinary none none c1gMsg).toOption.map Prod.snd = some c1gWire ∧
    onDataReceived c1gCfg (FIXParser.init c1gCfg) c1gWire =
      .done (FIXParser.init c1gCfg) [Event.msg c1gDecoded 18 100] ∧
    nonFramerEntries c1gDecoded ≠ nonFramerEntries c1gMsg := by
  refine ⟨by decide, ?_, by decide⟩
  rw [onDataReceived]
  dsimp only
  apply Eq.trans (runLoop_step' c1gCfg rfl 8 (bstr "FIX.4.2")
    (toFix ["9=18", "100=2", "101=a", "102=b", "10=100"])
    { isParsing := false
      message := fixMessageNew [8, 9]
      chksum := 0
      msgLength := 0
      binaryLength := -1
      binaryTag := 0
      levelStack := []
      buffer := toFix ["8=FIX.4.2", "9=18", "100=2", "101=a", "102=b",
        "10=100"] }
    [] 40
    (EntList.cons 8 (FV.str (bstr "FIX.4.2"))
      (EntList.cons 9 (FV.str []) EntList.nil))
    [] rfl rfl (by decide) (by decide) (by decide) (by decide) (by decide)
    rfl)
  apply Eq.trans (runLoop_step' c1gCfg rfl 9 (bstr "18")
    (toFix ["100=2", "101=a", "102=b", "10=100"])
    { isParsing := true
      message := EntList.cons 8 (FV.str (bstr "FIX.4.2"))
        (EntList.cons 9 (FV.str []) EntList.nil)
      chksum := 31
      msgLength := 0
      binaryLength := -1
      binaryTag := 0
      levelStack := []
      buffer := toFix ["9=18", "100=2", "101=a", "102=b", "10=100"] }
    [] 39 c1gHdr
    [] rfl rfl (by decide) (by decide) (by decide) (by decide) (by decide)
    rfl)
  apply Eq.trans (runLoop_step' c1gCfg rfl 100 (bstr "2")
    (toFix ["101=a", "102=b", "10=100"])
    { isParsing := true
      message := c1gHdr
      chksum := 255
      msgLength := 0
      binaryLength := -1
      binaryTag := 0
      levelStack := []
      buffer := toFix ["100=2", "101=a", "102=b", "10=100"] }
    [] 38 c1gHdr [c1gLvl0]
    rfl rfl (by decide) (by decide) (by decide) (by decide) (by decide)
    rfl)
  apply Eq.trans (runLoop_step' c1gCfg rfl 101 (bstr "a")
    (toFix ["102=b", "10=100"])
    { isParsing := true
      message := c1gHdr
      chksum := 256
      msgLength := 6
      binaryLength := -1
      binaryTag := 0
      levelStack := [c1gLvl0]
      buffer := toFix ["101=a", "102=b", "10=100"] }
    [] 37 c1gHdr [c1gLvl1]
    rfl rfl (by decide) (by decide) (by decide) (by decide) (by decide)
    rfl)
  apply Eq.trans (runLoop_step' c1gCfg rfl 102 (bstr "b")
    (toFix ["10=100"])
    { isParsing := true
      message := c1gHdr
      chksum := 49
      msgLength := 12
      binaryLength := -1
      binaryTag := 0
      levelStack := [c1gLvl1]
      buffer := toFix ["102=b", "10=100"] }
    [] 36 c1gHdr [c1gLvl2]
    rfl rfl (by decide) (by decide) (by decide) (by decide) (by decide)
    rfl)
  apply Eq.trans (runLoop_step_last c1gCfg rfl (bstr "100") []
    { isParsing := true
      message := c1gHdr
      chksum := 100
      msgLength := 18
      binaryLength := -1
      binaryTag := 0
      levelStack := [c1gLvl2]
      buffer := toFix ["10=100"] }
    [] 35 c1gDecoded [] rfl rfl (by decide) (by decide) rfl (by decide)
    rfl)
  exact runLoop_done c1gCfg 35
    { FIXParser.init c1gCfg with buffer := [] }
    ([] ++ [Event.msg c1gDecoded 18 100]) rfl

/-!  ## Theorems: binary fields (claim C7) -/

/-- Claim C7: a binary-length tag L in `binary_fields` with decimal value N
records the expected extent `len(str(L+1)) + N`, making the loop's
delimiter search start at `len(str(L+1)) + 1 + N` — the search result over
a buffer whose first `len(str(L+1)) + 1 + N` bytes form the binary field is
independent of those bytes (embedded 0x01 or `=` included); a following
field whose tag is not L+1 is a parse error, as is one whose byte length
differs from the expected count. -/
theorem claim_C7_binary_fields (cfg : ParserConfig) (st : ParserState)
    (field v : Bytes) (L N : Nat) (pre rest : Bytes) :
    (st.binaryTag = 0 → L ∈ cfg.binaryFields → pyParseNat? v = some N →
      ((natToBytes (L + 1)).length + N : Int) ≤ (cfg.maxLength : Int) →
      updateBinary cfg st field L v =
        .ok { st with binaryLength := ((natToBytes (L + 1)).length + N : Int), binaryTag := L }) ∧
    (st.binaryLength = ((natToBytes (L + 1)).length + N : Int) →
      (st.binaryLength + 1).toNat = (natToBytes (L + 1)).length + 1 + N) ∧
    (pre.length = (natToBytes (L + 1)).length + 1 + N →
      findFrom 1 pre.length (pre ++ rest) =
        (findFrom 1 0 rest).map (fun i => pre.length + i)) ∧
    (st.binaryTag = L → L ≠ 0 → ∀ tagId, tagId ≠ L + 1 →
      updateBinary cfg st field tagId v = .error (.err .parserError)) ∧
    (st.binaryTag = L → L ≠ 0 → (field.length : Int) ≠ st.binaryLength + 1 →
      updateBinary cfg st field (L + 1) v = .error (.err .parserError)) := by
  refine ⟨?_, ?_, ?_, ?_, ?_⟩
  · intro h0 hmem hval hle
    rw [updateBinary, if_pos h0, if_pos hmem, hval]
    dsimp only
    rw [if_neg (by omega)]
  · intro hB
    omega
  · intro _
    rw [findFrom, findFrom, List.drop_left, List.drop_zero]
    cases h : rest.findIdx? (· == 1) <;> simp [h]
  · intro hbt hL0 tagId htag
    rw [updateBinary, if_neg (by omega), if_pos (by omega)]
  · intro hbt hL0 hlen
    rw [updateBinary, if_neg (by omega), if_neg (by omega), if_pos hlen]

/-- Concrete inputs exercising `claim_C7_binary_fields`: binary tag 99
carrying length 5, and a delimiter search over a 9-byte binary field
(`len(str(100)) + 1 + 5`) containing embedded 0x01 and `=` bytes. -/
theorem claim_C7_binary_fields_witness :
    updateBinary { binaryFields := [99] }
        (FIXParser.init { binaryFields := [99] }) (bstr "99=5") 99
        (bstr "5") =
      Except.ok { FIXParser.init { binaryFields := [99] } with binaryLength := ((natToBytes (99 + 1)).length + 5 : Int), binaryTag := 99 } ∧
    findFrom 1 ([49, 48, 48, 61, 1, 61, 49, 1, 50] : Bytes).length
        ([49, 48, 48, 61, 1, 61, 49, 1, 50] ++ (bstr "10=001" ++ [1])) =
      (findFrom 1 0 (bstr "10=001" ++ [1])).map
        (fun i => ([49, 48, 48, 61, 1, 61, 49, 1, 50] : Bytes).length + i) :=
  ⟨(claim_C7_binary_fields { binaryFields := [99] }
      (FIXParser.init { binaryFields := [99] }) (bstr "99=5") (bstr "5")
      99 5 [49, 48, 48, 61, 1, 61, 49, 1, 50] (bstr "10=001" ++ [1])).1
      rfl (by decide) (by decide) (by decide),
   (claim_C7_binary_fields { binaryFields := [99] }
      (FIXParser.init { binaryFields := [99] }) (bstr "99=5") (bstr "5")
      99 5 [49, 48, 48, 61, 1, 61, 49, 1, 50] (bstr "10=001" ++ [1])).2.2.1
      (by decide)⟩

/-- The original claim C6 fails when a member tag is itself a group lead:
with `c6gf`, tag 200 is a member of the active group-100 level whose
current sub-group does not contain it, yet the parser pushes a fresh level
for 200 instead of storing the value through the member branch. -/
theorem claim_C6_counterexample :
    (200 ∈ membersOf c6gf 100) ∧ isGroupField c6gf 200 = true ∧
    updateField c6gf 0 200 c6val EntList.nil [c6lvl] =
      .ok (EntList.nil,
        { tag := 200, glist := GrpList.nil, hasCur := false } :: [c6lvl]) ∧
    ({ tag := 200, glist := GrpList.nil, hasCur := false } :: [c6lvl]) ≠
      [levelStoreMember c6lvl 200 c6val] := by
  refine ⟨by decide, by decide, rfl, by decide⟩

end Fixtest

